import Mathlib

/-!
Verification of `merge_340b.py`: a batch pipeline that merges 340B enrollment
spreadsheets, filters to active DSH/PED identifiers, and deduplicates by root id.

The Python source is shallowly embedded: pandas DataFrames become association-list
rows with an explicit column-order list, Python strings become Lean `String`
manipulated through their character lists, pandas timestamps become an integer
count of seconds together with an optional time-zone tag, and the two fatal
`SystemExit` outcomes become an `Except` error type.  Spreadsheet reading is
represented by handing each file an optional raw cell grid (`none` models an
unreadable file, i.e. `pd.read_excel` raising).
-/

namespace Merge340B

/-! ## Python string primitives (over `String.data` character lists) -/

/-- Python whitespace characters (space, tab, newline, carriage return,
vertical tab, form feed), as matched by `str.strip()` and `re` pattern s
in the source (ASCII fragment). -/
def isWS (c : Char) : Bool :=
  c.toNat == 32 || c.toNat == 9 || c.toNat == 10 || c.toNat == 13 ||
    c.toNat == 11 || c.toNat == 12

/-- ASCII decimal digit, as matched by the regex class d in `ROOT_ID_REGEX`. -/
def isDigitCh (c : Char) : Bool :=
  48 ≤ c.toNat && c.toNat ≤ 57

/-- `str.upper()` on one ASCII character. -/
def upChar (c : Char) : Char :=
  if 97 ≤ c.toNat ∧ c.toNat ≤ 122 then Char.ofNat (c.toNat - 32) else c

/-- `str.lower()` on one ASCII character. -/
def lowChar (c : Char) : Char :=
  if 65 ≤ c.toNat ∧ c.toNat ≤ 90 then Char.ofNat (c.toNat + 32) else c

/-- Python `s.upper()`. -/
def pyUpper (s : String) : String := ⟨s.data.map upChar⟩

/-- Python `s.lower()`. -/
def pyLower (s : String) : String := ⟨s.data.map lowChar⟩

/-- Python `s.strip()`: drop whitespace from both ends. -/
def pyStrip (s : String) : String :=
  ⟨((s.data.dropWhile isWS).reverse.dropWhile isWS).reverse⟩

/-- Python `s.startswith(t)`. -/
def pyStartsWith (s t : String) : Bool := t.data.isPrefixOf s.data

/-- Python `s.endswith(t)`. -/
def pyEndsWith (s t : String) : Bool := t.data.isSuffixOf s.data

/-- Substring containment over character lists: `needle` occurs contiguously
inside `hay`.  Models Python `needle in hay`. -/
def listContains : List Char → List Char → Bool
  | hay, needle =>
    match hay with
    | [] => needle.isEmpty
    | _ :: t => needle.isPrefixOf (hay) || listContains t needle

/-- Python `needle in hay` for strings. -/
def strContains (hay needle : String) : Bool := listContains hay.data needle.data

/-- Python `s[n:]` (by character count). -/
def strDrop (n : Nat) (s : String) : String := ⟨s.data.drop n⟩

/-- Python `s[:n]` (by character count). -/
def strTake (n : Nat) (s : String) : String := ⟨s.data.take n⟩

/-- Longest leading run of characters satisfying `p`. -/
def strTakeWhile (p : Char → Bool) (s : String) : String := ⟨s.data.takeWhile p⟩

/-- Collapse every maximal run of whitespace into a single space: the effect of
`re.sub(r"s+", " ", ·)` in `normalize` (the pattern is backslash-s-plus). -/
def squeeze : List Char → List Char
  | [] => []
  | [c] => if isWS c then [' '] else [c]
  | c :: d :: rest =>
    if isWS c then
      if isWS d then squeeze (d :: rest) else ' ' :: squeeze (d :: rest)
    else c :: squeeze (d :: rest)

/-- `normalize(s)` from the source: `re.sub(r"s+", " ", str(s).strip()).lower()`
(strip, collapse whitespace runs, lower-case). -/
def normalize (s : String) : String := pyLower ⟨squeeze (pyStrip s).data⟩

/-! ## Timestamps and cells -/

/-- A pandas timestamp: wall-clock seconds since the 1970 epoch plus an optional
time-zone tag (`none` = tz-naive).  `ts % 86400 = 0` means midnight, i.e. a pure
calendar date. -/
structure DT where
  ts : Int
  tz : Option Int
deriving DecidableEq

/-- One spreadsheet cell: blank (NaN), a string, or a datetime value. -/
inductive Cell
  | blank
  | str (s : String)
  | dt (d : DT)
deriving DecidableEq

/-- Python `str(x)` on a cell, as used by `astype(str)` and `find_header_row`.
NaN renders as `"nan"`; the datetime rendering is abbreviated (it never matches
`ROOT_ID_REGEX` nor equals `"340b id"`, the only two uses). -/
def cellToStr : Cell → String
  | .blank => "nan"
  | .str s => s
  | .dt d => "Timestamp(" ++ toString d.ts ++ ")"

/-! ## Date parsing (model of `pd.to_datetime` on single values) -/

/-- Split a character list at every occurrence of the separator character
(Python `s.split(sep)` for a one-character separator). -/
def splitOnCh (sep : Char) : List Char → List (List Char)
  | [] => [[]]
  | c :: rest =>
    if c == sep then [] :: splitOnCh sep rest
    else
      match splitOnCh sep rest with
      | [] => [[c]]
      | h :: t => (c :: h) :: t

/-- String form of `splitOnCh`. -/
def strSplitOn (sep : Char) (s : String) : List String :=
  (splitOnCh sep s.data).map (fun l => ⟨l⟩)

/-- Parse a nonempty all-digit string as a natural number. -/
def digitsToNat (s : String) : Option Nat :=
  if !s.data.isEmpty && s.data.all isDigitCh then
    some (s.data.foldl (fun a c => a * 10 + (c.toNat - 48)) 0)
  else none

def isLeapYear (y : Nat) : Bool :=
  (y % 4 == 0 && y % 100 != 0) || (y % 400 == 0)

/-- Days before month `m` (1-based) in a non-leap year. -/
def cumDays (m : Nat) : Nat :=
  [0, 31, 59, 90, 120, 151, 181, 212, 243, 273, 304, 334].getD (m - 1) 0

def monthLen (y m : Nat) : Nat :=
  if m == 2 then (if isLeapYear y then 29 else 28)
  else [31, 28, 31, 30, 31, 30, 31, 31, 30, 31, 30, 31].getD (m - 1) 0

/-- Leap years in the interval `[1970, y)`. -/
def leapsBefore (y : Nat) : Nat :=
  (List.range (y - 1970)).countP (fun k => isLeapYear (1970 + k))

/-- Midnight timestamp of a valid calendar date on or after 1970 (the model's
covered range); invalid component values are unparsable. -/
def dateToTs (y m d : Nat) : Option Int :=
  if 1970 ≤ y && 1 ≤ m && m ≤ 12 && 1 ≤ d && d ≤ monthLen y m then
    some (((y - 1970) * 365 + leapsBefore y + cumDays m +
      (if 2 < m && isLeapYear y then 1 else 0) + (d - 1) : Nat) * 86400)
  else none

/-- Parse `"YYYY-MM-DD"`. -/
def parseYMD (s : String) : Option Int :=
  match strSplitOn '-' s with
  | [y, m, d] => do
    let yy ← digitsToNat y
    let mm ← digitsToNat m
    let dd ← digitsToNat d
    dateToTs yy mm dd
  | _ => none

/-- Parse `"HH:MM:SS"` or `"HH:MM"` as seconds within the day. -/
def parseHMS (s : String) : Option Nat :=
  match strSplitOn ':' s with
  | [h, m, sec] => do
    let hh ← digitsToNat h
    let mm ← digitsToNat m
    let ss ← digitsToNat sec
    if hh < 24 && mm < 60 && ss < 60 then some (hh * 3600 + mm * 60 + ss) else none
  | [h, m] => do
    let hh ← digitsToNat h
    let mm ← digitsToNat m
    if hh < 24 && mm < 60 then some (hh * 3600 + mm * 60) else none
  | _ => none

/-- `pd.to_datetime` on one string value (ISO fragment of its accepted formats):
a date, optionally followed by a space-separated time of day.  Everything else
is unparsable.  Parsed strings are tz-naive. -/
def parseDateStr (s0 : String) : Option DT :=
  let s := pyStrip s0
  match strSplitOn ' ' s with
  | [d] => (parseYMD d).map (fun ts => ⟨ts, none⟩)
  | [d, t] => do
    let ts ← parseYMD d
    let sec ← parseHMS t
    some ⟨ts + (sec : Int), none⟩
  | _ => none

/-- `pd.to_datetime(·, errors="coerce")` on one cell: datetime cells pass
through unchanged, strings are parsed, blanks and failures give `none` (NaT). -/
def parseCellDT : Cell → Option DT
  | .blank => none
  | .str s => parseDateStr s
  | .dt d => some d

/-- `coerce_datetime` from the source on a column of cells:
`pd.to_datetime(series, errors="coerce").dt.tz_localize(None)`.
`tz_localize(None)` removes the time-zone tag, preserving wall-clock time. -/
def coerce_datetime (cells : List Cell) : List (Option DT) :=
  cells.map (fun c => (parseCellDT c).map (fun d => ⟨d.ts, none⟩))

/-- Per-cell form of `coerce_datetime`, producing the stored cell. -/
def coerceCell (c : Cell) : Cell :=
  match parseCellDT c with
  | some d => .dt ⟨d.ts, none⟩
  | none => .blank

/-! ## Rows and frames -/

/-- One DataFrame row: an association list from column label to cell.
A label absent from the list reads as blank (NaN), which also models the
column alignment performed by `pd.concat`. -/
abbrev Row := List (String × Cell)

/-- Read column `k` of a row (missing = NaN). -/
def getCell (r : Row) (k : String) : Cell :=
  match r.find? (fun p => p.1 == k) with
  | some p => p.2
  | none => .blank

/-- Column assignment `row[k] = v`: overwrite in place if the label exists,
else append the new column at the end (pandas column-assignment semantics). -/
def setCell : Row → String → Cell → Row
  | [], k, v => [(k, v)]
  | p :: rest, k, v => if p.1 == k then (k, v) :: rest else p :: setCell rest k v

/-- A DataFrame whose row index has been discarded: ordered column labels
plus rows. -/
structure Frame where
  cols : List String
  rows : List Row
deriving DecidableEq

/-- A DataFrame carrying its pandas row index (assigned by
`pd.concat(..., ignore_index=True)` and preserved by every later operation
until the final `reset_index(drop=True)`). -/
structure PFrame where
  cols : List String
  rows : List (Nat × Row)
deriving DecidableEq

/-- Values of one column, top to bottom. -/
def colVals (f : Frame) (c : String) : List Cell :=
  f.rows.map (fun r => getCell r c)

/-- Append a column label if not already present. -/
def addColName (cols : List String) (k : String) : List String :=
  if cols.contains k then cols else cols ++ [k]

/-- `df[k] = df[src]` on an index-free frame. -/
def aliasAssign (f : Frame) (k src : String) : Frame :=
  ⟨addColName f.cols k, f.rows.map (fun r => setCell r k (getCell r src))⟩

/-- `df[k] = constant` on an index-free frame. -/
def constAssign (f : Frame) (k : String) (v : Cell) : Frame :=
  ⟨addColName f.cols k, f.rows.map (fun r => setCell r k v)⟩

/-! ## Configuration tables from the source (`POSSIBLE_COLS`) -/

def ID_CANDS : List String := ["340B ID", "340BID", "ID"]

def ENTITY_CANDS : List String :=
  ["Entity Name", "Covered Entity Name", "Covered Entity", "Entity"]

def PHARM_CANDS : List String :=
  ["Pharmacy Name", "Pharmacy", "Doing Business As", "DBA"]

def BEGIN_CANDS : List String :=
  ["Contract Begin Date", "Begin Date", "Contract Start Date", "Start Date"]

def TERM_CANDS : List String :=
  ["Contract Term Date", "Termination Date", "Contract End Date", "End Date", "Term Date"]

def CITY_CANDS : List String := ["City"]

def STATE_CANDS : List String := ["State"]

def ZIP_CANDS : List String := ["Zip", "ZIP", "Zip Code", "Postal Code"]

/-! ## Column matcher (`best_match_column`) -/

/-- The pairs `(normalize(c), c)` in column order; the dict comprehension
`{normalize(c): c for c in existing_cols}` keeps the LAST value per key. -/
def normPairs (cols : List String) : List (String × String) :=
  cols.map (fun c => (normalize c, c))

/-- Lookup in the comprehension-built dict: last binding wins. -/
def dictLookup (m : List (String × String)) (k : String) : Option String :=
  (m.reverse.find? (fun p => p.1 == k)).map (fun p => p.2)

/-- `best_match_column(existing_cols, candidates)` from the source: an exact
pass over normalized labels, then a substring-containment pass over the
columns in their original order. -/
def best_match_column (existing_cols candidates : List String) : Option String :=
  match candidates.findSome? (fun cand => dictLookup (normPairs existing_cols) (normalize cand)) with
  | some c => some c
  | none =>
    existing_cols.find? (fun col =>
      candidates.any (fun cand => strContains (normalize col) (normalize cand)))

/-! ## Header locator (`find_header_row`) and `read_with_auto_header` -/

/-- Does this raw row contain a cell whose normalized text is exactly
`"340b id"`? -/
def rowHas340B (row : List Cell) : Bool :=
  row.any (fun c => normalize (cellToStr c) == "340b id")

/-- `find_header_row(df_like)`: index of the first such row among the first
15 rows, else `none`. -/
def find_header_row (g : List (List Cell)) : Option Nat :=
  (List.range (min 15 g.length)).find? (fun i => rowHas340B (g.getD i []))

/-- The header index actually used: the located row, or the fixed fallback
row 3. -/
def headerIndex (g : List (List Cell)) : Nat :=
  (find_header_row g).getD 3

/-- Build a row keyed by the header labels (rows shorter than the header read
as NaN in the missing columns). -/
def rowFromCells (names : List String) (cells : List Cell) : Row :=
  names.zip cells

/-- `df.dropna(axis=1, how="all")`: drop columns blank in every row. -/
def dropEmptyCols (f : Frame) : Frame :=
  let keep := f.cols.filter (fun c => f.rows.any (fun r => getCell r c ≠ .blank))
  ⟨keep, f.rows.map (fun r => r.filter (fun p => keep.contains p.1))⟩

/-- `df.dropna(axis=0, how="all")`: drop rows blank in every column. -/
def dropEmptyRows (f : Frame) : Frame :=
  ⟨f.cols, f.rows.filter (fun r => f.cols.any (fun c => getCell r c ≠ .blank))⟩

/-- `read_with_auto_header(path)` applied to the raw cell grid of the file's
first sheet: detect the header row on a 20-row preview, take that row's
stringified cells as column labels, the rows after it as data, then drop
all-blank columns and all-blank rows. -/
def read_with_auto_header (g : List (List Cell)) : Frame :=
  let hdr := headerIndex (g.take 20)
  let names := (g.getD hdr []).map cellToStr
  let body := (g.drop (hdr + 1)).map (fun cells => rowFromCells names cells)
  dropEmptyRows (dropEmptyCols ⟨names, body⟩)

/-! ## Root-id extraction (`ROOT_ID_REGEX`, `extract_root_id`) -/

/-- `ROOT_ID_REGEX.match(t)` and `.group(0)`: the regex is anchored at the
start, matches `DSH` or `PED` case-insensitively (the token set is hard-coded
in the source), then one or more decimal digits (greedy), and returns the
matched substring in its original case. -/
def regexRootMatch (t : String) : Option String :=
  if pyStartsWith (pyUpper t) "DSH" || pyStartsWith (pyUpper t) "PED" then
    let ds := strTakeWhile isDigitCh (strDrop 3 t)
    if ds.data.isEmpty then none else some (strTake 3 t ++ ds)
  else none

/-- `extract_root_id(id_val)` from the source, on string input (in the
pipeline the argument is always a string, `astype(str)` having run first, so
the non-string coercion branch is the identity): strip, match the regex,
upper-case the matched substring. -/
def extract_root_id (s : String) : Option String :=
  (regexRootMatch (pyStrip s)).map pyUpper

/-- The per-row derivation
`merged["ID"].astype(str).str.upper().str.strip().apply(extract_root_id)`. -/
def rowRootID (r : Row) : Option String :=
  extract_root_id (pyStrip (pyUpper (cellToStr (getCell r "ID"))))

/-! ## Pipeline stages of `process_folder` -/

/-- The `RootID` column value stored for a row. -/
def rootKey (r : Row) : Option String :=
  match getCell r "RootID" with
  | .str s => some s
  | _ => none

/-- The `BeginDate` sort key of a row after date coercion (`none` = NaT). -/
def beginKey (r : Row) : Option Int :=
  match getCell r "BeginDate" with
  | .dt d => some d.ts
  | _ => none

/-- The `TermDate` value of a row after date coercion (`none` = NaT). -/
def termKey (r : Row) : Option Int :=
  match getCell r "TermDate" with
  | .dt d => some d.ts
  | _ => none

/-- Column order of `pd.concat`: all columns present in any input, in first
appearance order. -/
def unionCols (frames : List Frame) : List String :=
  frames.foldl (fun acc f => acc ++ f.cols.filter (fun c => !acc.contains c)) []

/-- `pd.concat(frames, ignore_index=True)`: stack rows in file order and
assign the fresh index `0, 1, 2, ...`. -/
def concatFrames (frames : List Frame) : PFrame :=
  ⟨unionCols frames, ((frames.map Frame.rows).flatten).enum⟩

/-- Date normalization of the alias columns:
`merged["BeginDate"] = coerce_datetime(merged["BeginDate"])` and likewise for
`TermDate`. -/
def coerceStage (m : PFrame) : PFrame :=
  ⟨addColName (addColName m.cols "BeginDate") "TermDate",
    m.rows.map (fun e =>
      (e.1, setCell (setCell e.2 "BeginDate" (coerceCell (getCell e.2 "BeginDate")))
        "TermDate" (coerceCell (getCell e.2 "TermDate"))))⟩

/-- `merged["RootID"] = merged["ID"].astype(str).str.upper().str.strip().apply(extract_root_id)`. -/
def rootStage (m : PFrame) : PFrame :=
  ⟨addColName m.cols "RootID",
    m.rows.map (fun e =>
      (e.1, setCell e.2 "RootID"
        (match rowRootID e.2 with
         | some s => .str s
         | none => .blank)))⟩

/-- `keep_mask = merged["RootID"].notna() & merged["RootID"].str.startswith(prefixes)`
with `prefixes = tuple(p.upper() for p in prefixes)`. -/
def prefixKeep (prefixes : List String) (r : Row) : Bool :=
  match rootKey r with
  | some s => (prefixes.map pyUpper).any (fun p => pyStartsWith s p)
  | none => false

def prefixFilter (prefixes : List String) (m : PFrame) : PFrame :=
  ⟨m.cols, m.rows.filter (fun e => prefixKeep prefixes e.2)⟩

/-- `merged["TermDate"].isna() | (merged["TermDate"] >= today)`: blank term
dates count as active. -/
def activeKeep (today : DT) (r : Row) : Bool :=
  match termKey r with
  | none => true
  | some t => today.ts ≤ t

def activeFilter (today : DT) (m : PFrame) : PFrame :=
  ⟨m.cols, m.rows.filter (fun e => activeKeep today e.2)⟩

/-! ### Sorting (`sort_values(by=["RootID", "BeginDate"], ascending=[True, False])`)

With two sort keys, pandas sorts by a stable lexicographic sort (numpy
`lexsort`), placing NaN/NaT last in each key regardless of direction
(`na_position="last"`).  A stable sort by the keys
(RootID ascending, BeginDate descending) of index-labelled rows produces
exactly the same list as any sort by the strict total order that breaks
remaining ties by the row index, which is how the sort is modelled here. -/

/-- Lexicographic strict order on character lists by code point. -/
def strLtB : List Char → List Char → Bool
  | [], [] => false
  | [], _ :: _ => true
  | _ :: _, [] => false
  | a :: as, b :: bs => a.toNat < b.toNat || (a.toNat == b.toNat && strLtB as bs)

/-- RootID sort key order: ascending, missing values last. -/
def optStrLTb : Option String → Option String → Bool
  | some x, some y => strLtB x.data y.data
  | some _, none => true
  | none, _ => false

/-- BeginDate sort key order: descending, missing values last. -/
def bkBeforeb : Option Int → Option Int → Bool
  | some x, some y => decide (y < x)
  | some _, none => true
  | none, _ => false

/-- The total order realized by the stable two-key sort on index-labelled
rows: RootID ascending, then BeginDate descending (NaT last), then the
original row index. -/
def leRowB (a b : Nat × Row) : Bool :=
  optStrLTb (rootKey a.2) (rootKey b.2) ||
    (rootKey a.2 == rootKey b.2 &&
      (bkBeforeb (beginKey a.2) (beginKey b.2) ||
        (beginKey a.2 == beginKey b.2 && a.1 ≤ b.1)))

def leRow (a b : Nat × Row) : Prop := leRowB a b = true

instance : DecidableRel leRow := fun a b => inferInstanceAs (Decidable (leRowB a b = true))

/-- The conditional sort:
`if dedupe_strategy == "latest-begin": merged.sort_values(...)`. -/
def sortStage (strat : String) (m : PFrame) : PFrame :=
  if strat == "latest-begin" then ⟨m.cols, List.insertionSort leRow m.rows⟩ else m

/-- `drop_duplicates(subset=["RootID"], keep="first")`: keep each row whose
RootID has not been seen earlier in the frame. -/
def dedupGo (seen : List (Option String)) : List (Nat × Row) → List (Nat × Row)
  | [] => []
  | x :: xs =>
    if seen.contains (rootKey x.2) then dedupGo seen xs
    else x :: dedupGo (rootKey x.2 :: seen) xs

def dedupStage (m : PFrame) : PFrame :=
  ⟨m.cols, dedupGo [] m.rows⟩

/-! ### Output column selection -/

def KEY_FIRST : List String :=
  ["RootID", "ID", "EntityName", "PharmacyName", "BeginDate", "TermDate"]

/-- Reindex a row to exactly the given columns (`deduped[cols]`). -/
def selectRow (cols : List String) (r : Row) : Row :=
  cols.map (fun c => (c, getCell r c))

/-- Final column selection and `reset_index(drop=True)`: in keep-all mode the
present key fields first and every other column after; otherwise only the
present key fields. -/
def selectStage (keep_all_columns : Bool) (m : PFrame) : Frame :=
  let kf := KEY_FIRST.filter (fun c => m.cols.contains c)
  let outCols :=
    if keep_all_columns then kf ++ m.cols.filter (fun c => !kf.contains c)
    else kf
  ⟨outCols, m.rows.map (fun e => selectRow outCols e.2)⟩

/-! ## `process_folder` -/

/-- One directory entry: its base name and, when readable, the raw cell grid
of its first sheet (`none` models `pd.read_excel` raising). -/
structure PFile where
  name : String
  content : Option (List (List Cell))
deriving DecidableEq

/-- The two fatal `SystemExit` outcomes of `process_folder`. -/
inductive PipelineError
  | noInputFiles
  | noUsableData
deriving DecidableEq

instance : DecidableEq (Except PipelineError Frame) := fun
  | .error a, .error b =>
    if h : a = b then isTrue (by rw [h]) else isFalse (fun hx => h (Except.error.inj hx))
  | .error _, .ok _ => isFalse (fun hx => Except.noConfusion hx)
  | .ok _, .error _ => isFalse (fun hx => Except.noConfusion hx)
  | .ok a, .ok b =>
    if h : a = b then isTrue (by rw [h]) else isFalse (fun hx => h (Except.ok.inj hx))

/-- File enumeration predicate:
`f.lower().endswith(".xlsx") and not f.startswith("~$")`. -/
def isCandidateFile (f : PFile) : Bool :=
  pyEndsWith (pyLower f.name) ".xlsx" && !(pyStartsWith f.name "~$")

/-- Per-file load: read with auto header, resolve the mandatory columns
(id, begin, term) and the optional ones (entity, pharmacy), then add the alias
columns and the `source_file` provenance column without dropping originals.
`none` means the file is skipped with a warning. -/
def loadStep (fname : String) (df : Frame) : Option Frame :=
  let cols := df.cols
  match best_match_column cols ID_CANDS, best_match_column cols BEGIN_CANDS,
      best_match_column cols TERM_CANDS with
  | some cid, some cbeg, some cterm =>
    let d1 := aliasAssign df "ID" cid
    let d2 := aliasAssign d1 "BeginDate" cbeg
    let d3 := aliasAssign d2 "TermDate" cterm
    let d4 := match best_match_column cols ENTITY_CANDS with
      | some ce => aliasAssign d3 "EntityName" ce
      | none => d3
    let d5 := match best_match_column cols PHARM_CANDS with
      | some cp => aliasAssign d4 "PharmacyName" cp
      | none => d4
    some (constAssign d5 "source_file" (.str fname))
  | _, _, _ => none

/-- Load one enumerated file end to end; `none` covers both an unreadable file
(the `except` branch) and unresolved mandatory columns. -/
def loadFile (f : PFile) : Option Frame :=
  f.content.bind (fun g => loadStep f.name (read_with_auto_header g))

/-- Filter and dedup chain applied to the loaded frames (`today` is the
reference date computed from `--today` or the current date). -/
def pipelineCore (frames : List Frame) (prefixes : List String) (strat : String)
    (today : DT) (keep_all_columns : Bool) : Frame :=
  selectStage keep_all_columns
    (dedupStage (sortStage strat
      (activeFilter today (prefixFilter prefixes
        (rootStage (coerceStage (concatFrames frames)))))))

/-- `process_folder(input_dir, prefixes, dedupe_strategy, today_override,
keep_all_columns)`: enumerate candidate files, load each (skipping failures),
then run the pipeline; the two empty cases abort with `SystemExit`. -/
def process_folder (files : List PFile) (prefixes : List String) (strat : String)
    (today : DT) (keep_all_columns : Bool) : Except PipelineError Frame :=
  let cands := files.filter isCandidateFile
  if cands.isEmpty then .error .noInputFiles
  else
    let frames := cands.filterMap loadFile
    if frames.isEmpty then .error .noUsableData
    else .ok (pipelineCore frames prefixes strat today keep_all_columns)

/-! ## Specification-side definitions (from the claims' own wording, for
refinement comparisons) -/

/-- RootID derivation as the specification words it: trim and upper-case the
id, then match "one of the configured prefix tokens, case-insensitively,
immediately followed by one or more decimal digits, anchored at the start";
the result is the matched substring, upper-cased. -/
def claimRootID (tokens : List String) (s : String) : Option String :=
  tokens.findSome? (fun p =>
    if pyStartsWith (pyUpper (pyStrip s)) (pyUpper p) &&
        !(strTakeWhile isDigitCh
          (strDrop (pyUpper p).data.length (pyUpper (pyStrip s)))).data.isEmpty then
      some (pyUpper p ++
        strTakeWhile isDigitCh (strDrop (pyUpper p).data.length (pyUpper (pyStrip s))))
    else none)

/-- Python-dict update as the specification words the matcher's map-building:
replace the value in place if the key exists, else append. -/
def dictSet : List (String × String) → String → String → List (String × String)
  | [], k, v => [(k, v)]
  | p :: rest, k, v => if p.1 == k then (k, v) :: rest else p :: dictSet rest k v

/-- The normalized-label-to-original-label map built left to right with
last-wins on collisions (specification wording of the exact pass). -/
def specNormMap (cols : List String) : List (String × String) :=
  cols.foldl (fun m c => dictSet m (normalize c) c) []

def specLookup (m : List (String × String)) (k : String) : Option String :=
  (m.find? (fun p => p.1 == k)).map (fun p => p.2)

/-- Exact pass as specified: first candidate whose normalized form is in the
map wins. -/
def specExactPass (cols cands : List String) : Option String :=
  cands.findSome? (fun cand => specLookup (specNormMap cols) (normalize cand))

/-- Substring pass as specified: first observed column (original order) whose
normalized label contains the normalized form of any candidate. -/
def specSubstrPass (cols cands : List String) : Option String :=
  cols.find? (fun col => cands.any (fun cand => strContains (normalize col) (normalize cand)))

/-- The matcher as the specification describes it: the exact pass runs
completely first; only if it finds nothing does the substring pass run. -/
def specMatch (cols cands : List String) : Option String :=
  match specExactPass cols cands with
  | some c => some c
  | none => specSubstrPass cols cands

/-! ## General helper lemmas -/

theorem beq_symm {α : Type _} [BEq α] [LawfulBEq α] (a b : α) : (a == b) = (b == a) := by
  cases h : a == b
  · cases h2 : b == a
    · rfl
    · exact absurd (beq_iff_eq.mp h2).symm (by simpa using h)
  · exact (beq_iff_eq.mpr (beq_iff_eq.mp h).symm).symm

/-- `find?` over `List.range n` returns the least index below `n` satisfying
the predicate, and nothing otherwise. -/
theorem find?_range_eq_some {p : Nat → Bool} {n : Nat} :
    ∀ i : Nat,
      ((List.range n).find? p = some i ↔
        i < n ∧ p i = true ∧ ∀ j < i, p j = false) := by
  induction n with
  | zero =>
    intro i
    simp
  | succ n ih =>
    intro i
    rw [List.range_succ, List.find?_append]
    cases h : (List.range n).find? p with
    | some j =>
      obtain ⟨hjn, hpj, hmin⟩ := (ih j).mp h
      rw [Option.or_some]
      constructor
      · rintro hji
        injection hji with hji
        subst hji
        exact ⟨Nat.lt_succ_of_lt hjn, hpj, hmin⟩
      · rintro ⟨hin, hpi, hmin'⟩
        have hij : i = j := by
          rcases Nat.lt_trichotomy i j with hlt | heq | hgt
          · have hx := hmin i hlt
            simp [hx] at hpi
          · exact heq
          · have hx := hmin' j hgt
            simp [hx] at hpj
        rw [hij]
    | none =>
      have hnone : ∀ j < n, p j = false := by
        intro j hj
        have hx := List.find?_eq_none.mp h j (List.mem_range.mpr hj)
        simpa using hx
      rw [Option.none_or]
      cases hpn : p n with
      | true =>
        rw [show List.find? p [n] = some n from List.find?_cons_of_pos _ hpn]
        constructor
        · rintro hni
          injection hni with hni
          subst hni
          exact ⟨Nat.lt_succ_self n, hpn, hnone⟩
        · rintro ⟨hin, hpi, _⟩
          have hi : i = n := by
            rcases Nat.lt_succ_iff_lt_or_eq.mp hin with hlt | heq
            · simp [hnone i hlt] at hpi
            · exact heq
          rw [hi]
      | false =>
        rw [show List.find? p [n] = none from by
          rw [List.find?_cons_of_neg _ (by simp [hpn])]; rfl]
        refine iff_of_false (by simp) ?_
        rintro ⟨hin, hpi, _⟩
        rcases Nat.lt_succ_iff_lt_or_eq.mp hin with hlt | heq
        · simp [hnone i hlt] at hpi
        · subst heq
          simp [hpn] at hpi

/-- A member of the deduplicated list is exactly the first element of the
input carrying its RootID, provided that RootID was not already seen. -/
theorem mem_dedupGo_iff {x : Nat × Row} :
    ∀ (seen : List (Option String)) (l : List (Nat × Row)),
      x ∈ dedupGo seen l ↔
        seen.contains (rootKey x.2) = false ∧
          l.find? (fun y => rootKey y.2 == rootKey x.2) = some x := by
  intro seen l
  induction l generalizing seen with
  | nil => simp [dedupGo]
  | cons a l ih =>
    rw [show dedupGo seen (a :: l) =
        if seen.contains (rootKey a.2) then dedupGo seen l
        else a :: dedupGo (rootKey a.2 :: seen) l from rfl]
    by_cases h : seen.contains (rootKey a.2) = true
    · rw [if_pos h, ih seen]
      constructor
      · rintro ⟨hc, hf⟩
        refine ⟨hc, ?_⟩
        have hbne : ¬(rootKey a.2 == rootKey x.2) = true := by
          intro hbeq
          have heq : rootKey a.2 = rootKey x.2 := beq_iff_eq.mp hbeq
          rw [heq] at h
          exact Bool.noConfusion (h.symm.trans hc)
        have hstep : List.find? (fun y : Nat × Row => rootKey y.2 == rootKey x.2) (a :: l) =
            List.find? (fun y : Nat × Row => rootKey y.2 == rootKey x.2) l :=
          List.find?_cons_of_neg _ hbne
        rw [hstep]
        exact hf
      · rintro ⟨hc, hf⟩
        cases hbeq : (rootKey a.2 == rootKey x.2) with
        | true =>
          have heq : rootKey a.2 = rootKey x.2 := beq_iff_eq.mp hbeq
          rw [heq] at h
          exact absurd (h.symm.trans hc) Bool.noConfusion
        | false =>
          have hstep : List.find? (fun y : Nat × Row => rootKey y.2 == rootKey x.2) (a :: l) =
              List.find? (fun y : Nat × Row => rootKey y.2 == rootKey x.2) l :=
            List.find?_cons_of_neg _ (by simp [hbeq])
          rw [hstep] at hf
          exact ⟨hc, hf⟩
    · rw [if_neg h]
      have hfa : seen.contains (rootKey a.2) = false := by simpa using h
      simp only [List.mem_cons]
      rw [ih (rootKey a.2 :: seen)]
      constructor
      · rintro (rfl | ⟨hc, hf⟩)
        · refine ⟨hfa, ?_⟩
          exact List.find?_cons_of_pos _ (beq_self_eq_true _)
        · rw [List.contains_cons] at hc
          rcases Bool.or_eq_false_iff.mp hc with ⟨h1, h2⟩
          refine ⟨h2, ?_⟩
          have hbne : ¬(rootKey a.2 == rootKey x.2) = true := by
            rw [beq_symm (rootKey a.2) (rootKey x.2)]
            simp [h1]
          have hstep : List.find? (fun y : Nat × Row => rootKey y.2 == rootKey x.2) (a :: l) =
              List.find? (fun y : Nat × Row => rootKey y.2 == rootKey x.2) l :=
            List.find?_cons_of_neg _ hbne
          rw [hstep]
          exact hf
      · rintro ⟨hc, hf⟩
        by_cases hbeq : (rootKey a.2 == rootKey x.2) = true
        · left
          have hstep : List.find? (fun y : Nat × Row => rootKey y.2 == rootKey x.2) (a :: l) =
              some a :=
            List.find?_cons_of_pos _ hbeq
          rw [hstep] at hf
          injection hf with hf
          exact hf.symm
        · right
          have hbeq' : (rootKey a.2 == rootKey x.2) = false := by simpa using hbeq
          have hstep : List.find? (fun y : Nat × Row => rootKey y.2 == rootKey x.2) (a :: l) =
              List.find? (fun y : Nat × Row => rootKey y.2 == rootKey x.2) l :=
            List.find?_cons_of_neg _ hbeq
          rw [hstep] at hf
          refine ⟨?_, hf⟩
          rw [List.contains_cons, beq_symm (rootKey x.2) (rootKey a.2), hbeq',
            Bool.false_or]
          exact hc

/-- The deduplicated list has pairwise distinct RootIDs. -/
theorem dedupGo_pairwise :
    ∀ (seen : List (Option String)) (l : List (Nat × Row)),
      (dedupGo seen l).Pairwise (fun a b => rootKey a.2 ≠ rootKey b.2) := by
  intro seen l
  induction l generalizing seen with
  | nil => simp [dedupGo]
  | cons a l ih =>
    rw [show dedupGo seen (a :: l) =
        if seen.contains (rootKey a.2) then dedupGo seen l
        else a :: dedupGo (rootKey a.2 :: seen) l from rfl]
    by_cases h : seen.contains (rootKey a.2) = true
    · rw [if_pos h]
      exact ih seen
    · rw [if_neg h]
      refine List.pairwise_cons.mpr ⟨?_, ih _⟩
      intro b hb heq
      obtain ⟨hc, _⟩ := (mem_dedupGo_iff _ _).mp hb
      rw [List.contains_cons] at hc
      rw [← heq] at hc
      simp at hc

/-- In a `Pairwise`-sorted list, the first element satisfying `p` is related
to every later element satisfying `p`. -/
theorem find?_sorted_rel {α : Type _} {r : α → α → Prop} {p : α → Bool} :
    ∀ {l : List α} {x : α}, l.Pairwise r → l.find? p = some x →
      ∀ y ∈ l, p y = true → x = y ∨ r x y := by
  intro l
  induction l with
  | nil =>
    intro x _ hf
    simp at hf
  | cons a l ih =>
    intro x hp hf y hy hpy
    rcases List.pairwise_cons.mp hp with ⟨hra, hpl⟩
    cases hpa : p a with
    | true =>
      rw [List.find?_cons_of_pos _ hpa] at hf
      injection hf with hf
      subst hf
      rcases List.mem_cons.mp hy with rfl | hyl
      · exact Or.inl rfl
      · exact Or.inr (hra y hyl)
    | false =>
      rw [List.find?_cons_of_neg _ (by simp [hpa])] at hf
      rcases List.mem_cons.mp hy with rfl | hyl
      · simp [hpa] at hpy
      · exact ih hpl hf y hyl hpy

/-- Head step of `getCell` when the head's label matches. -/
theorem getCell_cons_pos (p : String × Cell) (rest : List (String × Cell))
    (k : String) (h : (p.1 == k) = true) : getCell (p :: rest) k = p.2 := by
  unfold getCell
  have hstep : List.find? (fun q : String × Cell => q.1 == k) (p :: rest) = some p :=
    List.find?_cons_of_pos _ h
  rw [hstep]

/-- Head step of `getCell` when the head's label differs. -/
theorem getCell_cons_neg (p : String × Cell) (rest : List (String × Cell))
    (k : String) (h : (p.1 == k) = false) : getCell (p :: rest) k = getCell rest k := by
  unfold getCell
  have hstep : List.find? (fun q : String × Cell => q.1 == k) (p :: rest) =
      List.find? (fun q : String × Cell => q.1 == k) rest :=
    List.find?_cons_of_neg _ (by simp [h])
  rw [hstep]

/-- Reading back the column just assigned. -/
theorem getCell_setCell_same (r : Row) (k : String) (v : Cell) :
    getCell (setCell r k v) k = v := by
  induction r with
  | nil =>
    show getCell [(k, v)] k = v
    rw [getCell_cons_pos _ _ _ (beq_self_eq_true k)]
  | cons p rest ih =>
    show getCell (if p.1 == k then (k, v) :: rest else p :: setCell rest k v) k = v
    by_cases h : (p.1 == k) = true
    · rw [if_pos h, getCell_cons_pos _ _ _ (beq_self_eq_true k)]
    · rw [if_neg h, getCell_cons_neg _ _ _ (by simpa using h)]
      exact ih

/-- Assigning one column leaves every other column unchanged. -/
theorem getCell_setCell_ne (r : Row) (k k2 : String) (v : Cell) (h : k ≠ k2) :
    getCell (setCell r k v) k2 = getCell r k2 := by
  induction r with
  | nil =>
    show getCell [(k, v)] k2 = getCell [] k2
    rw [getCell_cons_neg _ _ _ (beq_eq_false_iff_ne.mpr h)]
  | cons p rest ih =>
    show getCell (if p.1 == k then (k, v) :: rest else p :: setCell rest k v) k2 =
      getCell (p :: rest) k2
    by_cases hp : (p.1 == k) = true
    · rw [if_pos hp]
      have hp2 : (p.1 == k2) = false := by
        rw [beq_iff_eq.mp hp]
        exact beq_eq_false_iff_ne.mpr h
      rw [getCell_cons_neg _ _ _ (beq_eq_false_iff_ne.mpr h),
        getCell_cons_neg _ _ _ hp2]
    · rw [if_neg hp]
      by_cases h2 : (p.1 == k2) = true
      · rw [getCell_cons_pos _ _ _ h2, getCell_cons_pos _ _ _ h2]
      · have h2' : (p.1 == k2) = false := by simpa using h2
        rw [getCell_cons_neg _ _ _ h2', getCell_cons_neg _ _ _ h2']
        exact ih

/-- Reindexing to a column list that contains `c` preserves the value at `c`. -/
theorem getCell_selectRow (cols : List String) (r : Row) (c : String)
    (h : c ∈ cols) : getCell (selectRow cols r) c = getCell r c := by
  induction cols with
  | nil => cases h
  | cons c0 cols ih =>
    show getCell ((c0, getCell r c0) :: selectRow cols r) c = getCell r c
    by_cases h0 : (c0 == c) = true
    · rw [getCell_cons_pos _ _ _ h0]
      rw [beq_iff_eq.mp h0]
    · have hc : c ∈ cols := by
        rcases List.mem_cons.mp h with rfl | hc
        · simp at h0
        · exact hc
      rw [getCell_cons_neg _ _ _ (by simpa using h0)]
      exact ih hc

/-! ## Claim C8: header locator -/

/-- C8: `find_header_row` inspects at most the first 15 rows of the grid and
returns the index of the first row containing a cell whose normalized text is
exactly "340b id"; when no such row exists in that window it returns nothing,
and the caller's header index falls back to the fixed row 3.  The two concrete
grids exercise both outcomes. -/
theorem c8_header_locator_first_340b_row :
    (∀ (g : List (List Cell)) (i : Nat),
      find_header_row g = some i ↔
        i < min 15 g.length ∧ rowHas340B (g.getD i []) = true ∧
          ∀ j < i, rowHas340B (g.getD j []) = false) ∧
    (∀ g : List (List Cell), find_header_row g = none → headerIndex g = 3) ∧
    find_header_row [[Cell.str "x"], [], [Cell.str "y", Cell.str "340B ID"]] = some 2 ∧
    find_header_row [[Cell.str "x"], [Cell.str "y"]] = none ∧
    headerIndex [[Cell.str "x"], [Cell.str "y"]] = 3 := by
  refine ⟨?_, ?_, by decide, by decide, by decide⟩
  · intro g i
    unfold find_header_row
    exact find?_range_eq_some i
  · intro g h
    unfold headerIndex
    rw [h]
    rfl

/-- Witness for C8 at a concrete grid with no "340B ID" cell. -/
theorem c8_header_locator_witness :
    headerIndex [[Cell.str "nothing here"]] = 3 :=
  c8_header_locator_first_340b_row.2.1 _ (by decide)

/-! ## Claim C9: error conditions of `process_folder` -/

/-- C9: the run aborts with the no-input-files error exactly when the
directory holds no `.xlsx` entry other than `~$` temp artifacts; a file whose
load fails is skipped and the run continues; the run aborts with the
no-usable-data error exactly when candidates exist but every one of them was
skipped. -/
theorem c9_error_conditions :
    ∀ (files : List PFile) (prefixes : List String) (strat : String) (today : DT)
      (kac : Bool),
      (process_folder files prefixes strat today kac = .error .noInputFiles ↔
        files.filter isCandidateFile = []) ∧
      (process_folder files prefixes strat today kac = .error .noUsableData ↔
        files.filter isCandidateFile ≠ [] ∧
          ∀ f ∈ files.filter isCandidateFile, loadFile f = none) := by
  intro files prefixes strat today kac
  simp only [process_folder]
  by_cases hc : (files.filter isCandidateFile).isEmpty = true
  · rw [if_pos hc]
    have hcn := List.isEmpty_iff.mp hc
    constructor
    · exact iff_of_true rfl hcn
    · refine iff_of_false ?_ ?_
      · intro h
        exact PipelineError.noConfusion (Except.error.inj h)
      · rintro ⟨hne, _⟩
        exact hne hcn
  · rw [if_neg hc]
    have hcne : files.filter isCandidateFile ≠ [] := by
      intro h0
      exact hc (List.isEmpty_iff.mpr h0)
    by_cases hf : ((files.filter isCandidateFile).filterMap loadFile).isEmpty = true
    · rw [if_pos hf]
      refine ⟨iff_of_false (fun h => PipelineError.noConfusion (Except.error.inj h)) hcne, ?_⟩
      have hall := List.filterMap_eq_nil_iff.mp (List.isEmpty_iff.mp hf)
      exact iff_of_true rfl ⟨hcne, hall⟩
    · rw [if_neg hf]
      refine ⟨iff_of_false (fun h => Except.noConfusion h) hcne, ?_⟩
      refine iff_of_false (fun h => Except.noConfusion h) ?_
      rintro ⟨_, hall⟩
      exact hf (List.isEmpty_iff.mpr (List.filterMap_eq_nil_iff.mpr hall))

/-- Witness for C9: an empty directory aborts with the no-input-files error,
and a directory whose only candidate file is unreadable aborts with the
no-usable-data error. -/
theorem c9_error_conditions_witness :
    process_folder [] ["DSH"] "latest-begin" ⟨0, none⟩ false = .error .noInputFiles ∧
    process_folder [⟨"a.xlsx", none⟩] ["DSH"] "latest-begin" ⟨0, none⟩ false =
      .error .noUsableData :=
  ⟨(c9_error_conditions [] ["DSH"] "latest-begin" ⟨0, none⟩ false).1.mpr (by decide),
   (c9_error_conditions [⟨"a.xlsx", none⟩] ["DSH"] "latest-begin" ⟨0, none⟩ false).2.mpr
     (by decide)⟩

/-! ## Claim C10: unrecognized dedupe strategies -/

/-- C10: for every strategy string other than "latest-begin" the sort is
skipped, deduplication keeps the first-encountered row per RootID, and the
whole run behaves exactly as with the "first" strategy (in particular no
error is raised for an unrecognized value). -/
theorem c10_unknown_strategy_acts_like_first :
    ∀ strat : String, strat ≠ "latest-begin" →
      (∀ m : PFrame, sortStage strat m = m) ∧
      (∀ (m : PFrame) (x : Nat × Row),
        x ∈ (dedupStage (sortStage strat m)).rows ↔
          m.rows.find? (fun y => rootKey y.2 == rootKey x.2) = some x) ∧
      (∀ (files : List PFile) (prefixes : List String) (today : DT) (kac : Bool),
        process_folder files prefixes strat today kac =
          process_folder files prefixes "first" today kac) := by
  intro strat hne
  have hsort : ∀ m : PFrame, sortStage strat m = m := by
    intro m
    unfold sortStage
    rw [if_neg (fun h => hne (beq_iff_eq.mp h))]
  have hfirst : ∀ m : PFrame, sortStage "first" m = m := by
    intro m
    unfold sortStage
    rw [if_neg (by decide)]
  refine ⟨hsort, ?_, ?_⟩
  · intro m x
    rw [hsort m]
    show x ∈ dedupGo [] m.rows ↔ _
    rw [mem_dedupGo_iff]
    simp [List.contains]
  · intro files prefixes today kac
    have hp : ∀ frames, pipelineCore frames prefixes strat today kac =
        pipelineCore frames prefixes "first" today kac := by
      intro frames
      unfold pipelineCore
      rw [hsort, hfirst]
    simp only [process_folder, hp]

/-- Witness for C10 at the concrete strategy string "weird": the dedup keeps
the first-encountered row per RootID. -/
theorem c10_unknown_strategy_witness :
    sortStage "weird" ⟨["RootID"], [(0, [("RootID", Cell.str "DSH1")])]⟩ =
      ⟨["RootID"], [(0, [("RootID", Cell.str "DSH1")])]⟩ :=
  (c10_unknown_strategy_acts_like_first "weird" (by decide)).1 _

/-! ## Order properties of the sort comparator -/

theorem uint32_eq_of_toNat_eq {a b : UInt32} (h : a.toNat = b.toNat) : a = b := by
  cases a
  cases b
  simp only [UInt32.toNat] at h
  congr 1
  exact BitVec.eq_of_toNat_eq h

theorem char_eq_of_toNat_eq {c d : Char} (h : c.toNat = d.toNat) : c = d :=
  Char.eq_of_val_eq (uint32_eq_of_toNat_eq h)

theorem strLtB_irrefl : ∀ l : List Char, strLtB l l = false := by
  intro l
  induction l with
  | nil => rfl
  | cons c t ih => simp [strLtB, ih]

theorem strLtB_trans :
    ∀ a b c : List Char, strLtB a b = true → strLtB b c = true → strLtB a c = true := by
  intro a
  induction a with
  | nil =>
    intro b c hab hbc
    cases b with
    | nil => simp [strLtB] at hab
    | cons y ys =>
      cases c with
      | nil => simp [strLtB] at hbc
      | cons z zs => simp [strLtB]
  | cons x xs ih =>
    intro b c hab hbc
    cases b with
    | nil => simp [strLtB] at hab
    | cons y ys =>
      cases c with
      | nil => simp [strLtB] at hbc
      | cons z zs =>
        simp only [strLtB, Bool.or_eq_true, Bool.and_eq_true, decide_eq_true_eq,
          beq_iff_eq] at hab hbc ⊢
        rcases hab with hxy | ⟨hxyE, hxys⟩
        · rcases hbc with hyz | ⟨hyzE, _⟩
          · left
            omega
          · left
            omega
        · rcases hbc with hyz | ⟨hyzE, hyzs⟩
          · left
            omega
          · right
            exact ⟨hxyE.trans hyzE, ih ys zs hxys hyzs⟩

theorem strLtB_total :
    ∀ a b : List Char, strLtB a b = true ∨ a = b ∨ strLtB b a = true := by
  intro a
  induction a with
  | nil =>
    intro b
    cases b with
    | nil => exact Or.inr (Or.inl rfl)
    | cons y ys => exact Or.inl (by simp [strLtB])
  | cons x xs ih =>
    intro b
    cases b with
    | nil => exact Or.inr (Or.inr (by simp [strLtB]))
    | cons y ys =>
      rcases Nat.lt_trichotomy x.toNat y.toNat with h | h | h
      · exact Or.inl (by simp [strLtB, h])
      · have hxy : x = y := char_eq_of_toNat_eq h
        subst hxy
        rcases ih ys with h1 | h2 | h3
        · exact Or.inl (by simp [strLtB, h1])
        · exact Or.inr (Or.inl (by rw [h2]))
        · exact Or.inr (Or.inr (by simp [strLtB, h3]))
      · exact Or.inr (Or.inr (by simp [strLtB, h]))

theorem string_eq_of_data_eq {a b : String} (h : a.data = b.data) : a = b := by
  cases a
  cases b
  exact congrArg String.mk h

theorem optStrLTb_irrefl (a : Option String) : optStrLTb a a = false := by
  cases a with
  | none => rfl
  | some x => simpa [optStrLTb] using strLtB_irrefl x.data

theorem optStrLTb_trichotomy (a b : Option String) :
    optStrLTb a b = true ∨ a = b ∨ optStrLTb b a = true := by
  cases a with
  | none =>
    cases b with
    | none => exact Or.inr (Or.inl rfl)
    | some y => exact Or.inr (Or.inr rfl)
  | some x =>
    cases b with
    | none => exact Or.inl rfl
    | some y =>
      rcases strLtB_total x.data y.data with h | h | h
      · exact Or.inl (by simpa [optStrLTb] using h)
      · exact Or.inr (Or.inl (by rw [string_eq_of_data_eq h]))
      · exact Or.inr (Or.inr (by simpa [optStrLTb] using h))

theorem optStrLTb_trans {a b c : Option String} (h1 : optStrLTb a b = true)
    (h2 : optStrLTb b c = true) : optStrLTb a c = true := by
  cases a with
  | none => cases b <;> simp [optStrLTb] at h1
  | some x =>
    cases c with
    | none => rfl
    | some z =>
      cases b with
      | none => simp [optStrLTb] at h2
      | some y =>
        simp only [optStrLTb] at h1 h2 ⊢
        exact strLtB_trans _ _ _ h1 h2

theorem bkBeforeb_irrefl (a : Option Int) : bkBeforeb a a = false := by
  cases a with
  | none => rfl
  | some x => simp [bkBeforeb]

theorem bkBeforeb_trichotomy (a b : Option Int) :
    bkBeforeb a b = true ∨ a = b ∨ bkBeforeb b a = true := by
  cases a with
  | none =>
    cases b with
    | none => exact Or.inr (Or.inl rfl)
    | some y => exact Or.inr (Or.inr rfl)
  | some x =>
    cases b with
    | none => exact Or.inl rfl
    | some y =>
      rcases Int.lt_trichotomy y x with h | h | h
      · exact Or.inl (by simp [bkBeforeb, h])
      · exact Or.inr (Or.inl (by rw [h]))
      · exact Or.inr (Or.inr (by simp [bkBeforeb, h]))

theorem bkBeforeb_trans {a b c : Option Int} (h1 : bkBeforeb a b = true)
    (h2 : bkBeforeb b c = true) : bkBeforeb a c = true := by
  cases a with
  | none => cases b <;> simp [bkBeforeb] at h1
  | some x =>
    cases c with
    | none => rfl
    | some z =>
      cases b with
      | none => simp [bkBeforeb] at h2
      | some y =>
        simp only [bkBeforeb, decide_eq_true_eq] at h1 h2 ⊢
        omega

instance : IsTotal (Nat × Row) leRow := by
  constructor
  intro a b
  show leRowB a b = true ∨ leRowB b a = true
  rcases optStrLTb_trichotomy (rootKey a.2) (rootKey b.2) with h | h | h
  · exact Or.inl (by simp [leRowB, h])
  · rcases bkBeforeb_trichotomy (beginKey a.2) (beginKey b.2) with h2 | h2 | h2
    · exact Or.inl (by simp [leRowB, h, h2])
    · rcases Nat.le_total a.1 b.1 with h3 | h3
      · exact Or.inl (by simp [leRowB, h, h2, h3])
      · exact Or.inr (by simp [leRowB, h, h2, h3])
    · exact Or.inr (by simp [leRowB, h, h2])
  · exact Or.inr (by simp [leRowB, h])

instance : IsTrans (Nat × Row) leRow := by
  constructor
  intro a b c hab hbc
  show leRowB a c = true
  have hab' : leRowB a b = true := hab
  have hbc' : leRowB b c = true := hbc
  simp only [leRowB, Bool.or_eq_true, Bool.and_eq_true, beq_iff_eq,
    decide_eq_true_eq] at hab' hbc' ⊢
  rcases hab' with h1 | ⟨he1, hin1⟩
  · rcases hbc' with h2 | ⟨he2, _⟩
    · exact Or.inl (optStrLTb_trans h1 h2)
    · exact Or.inl (by rw [← he2]; exact h1)
  · rcases hbc' with h2 | ⟨he2, hin2⟩
    · exact Or.inl (by rw [he1]; exact h2)
    · refine Or.inr ⟨he1.trans he2, ?_⟩
      rcases hin1 with hb1 | ⟨hbe1, hi1⟩
      · rcases hin2 with hb2 | ⟨hbe2, hi2⟩
        · exact Or.inl (bkBeforeb_trans hb1 hb2)
        · exact Or.inl (by rw [← hbe2]; exact hb1)
      · rcases hin2 with hb2 | ⟨hbe2, hi2⟩
        · exact Or.inl (by rw [hbe1]; exact hb2)
        · exact Or.inr ⟨hbe1.trans hbe2, Nat.le_trans hi1 hi2⟩

/-! ## Claim C2: the "latest-begin" dedup strategy -/

/-- C2: under the "latest-begin" strategy the surviving row of each RootID
group is, among the group's rows, one whose BeginDate is latest in the
descending-nulls-last order (so a null BeginDate survives only when the whole
group is null), with ties on identical BeginDate broken by the smallest
original row index — in particular the first-encountered row when all begin
dates are null; each group has exactly one survivor. -/
theorem c2_latest_begin_dedup :
    ∀ (m : PFrame) (x : Nat × Row),
      (dedupStage (sortStage "latest-begin" m)).rows =
        dedupGo [] (List.insertionSort leRow m.rows) ∧
      (x ∈ (dedupStage (sortStage "latest-begin" m)).rows →
        x ∈ m.rows ∧
        (∀ y ∈ m.rows, rootKey y.2 = rootKey x.2 →
          bkBeforeb (beginKey x.2) (beginKey y.2) = true ∨
            (beginKey x.2 = beginKey y.2 ∧ x.1 ≤ y.1)) ∧
        (∀ x2 ∈ (dedupStage (sortStage "latest-begin" m)).rows,
          rootKey x2.2 = rootKey x.2 → x2 = x)) ∧
      (∀ y ∈ m.rows, ∃ z ∈ (dedupStage (sortStage "latest-begin" m)).rows,
        rootKey z.2 = rootKey y.2) := by
  intro m x
  have hs : sortStage "latest-begin" m = ⟨m.cols, List.insertionSort leRow m.rows⟩ := by
    unfold sortStage
    rw [if_pos (by decide)]
  have hrows : (dedupStage (sortStage "latest-begin" m)).rows =
      dedupGo [] (List.insertionSort leRow m.rows) := by
    rw [hs]
    rfl
  have hsorted : List.Pairwise leRow (List.insertionSort leRow m.rows) :=
    List.sorted_insertionSort leRow m.rows
  have hperm := List.perm_insertionSort leRow m.rows
  refine ⟨hrows, ?_, ?_⟩
  · intro hx
    rw [hrows] at hx
    obtain ⟨-, hfind⟩ := (mem_dedupGo_iff [] (List.insertionSort leRow m.rows)).mp hx
    have hxin : x ∈ List.insertionSort leRow m.rows := List.mem_of_find?_eq_some hfind
    refine ⟨hperm.mem_iff.mp hxin, ?_, ?_⟩
    · intro y hy hkey
      have hyin : y ∈ List.insertionSort leRow m.rows := hperm.mem_iff.mpr hy
      have hpy : ((fun z : Nat × Row => rootKey z.2 == rootKey x.2) y) = true := by
        show (rootKey y.2 == rootKey x.2) = true
        exact beq_iff_eq.mpr hkey
      rcases find?_sorted_rel hsorted hfind y hyin hpy with rfl | hle
      · exact Or.inr ⟨rfl, Nat.le_refl _⟩
      · have hle' : leRowB x y = true := hle
        simp only [leRowB, Bool.or_eq_true, Bool.and_eq_true, beq_iff_eq,
          decide_eq_true_eq] at hle'
        rcases hle' with h1 | ⟨-, h2⟩
        · exfalso
          rw [hkey, optStrLTb_irrefl] at h1
          exact Bool.noConfusion h1
        · exact h2
    · intro x2 hx2 hkey2
      rw [hrows] at hx2
      obtain ⟨-, hfind2⟩ :=
        (mem_dedupGo_iff [] (List.insertionSort leRow m.rows)).mp hx2
      rw [hkey2] at hfind2
      have hxx := hfind.symm.trans hfind2
      injection hxx with h
      exact h.symm
  · intro y hy
    have hyin : y ∈ List.insertionSort leRow m.rows := hperm.mem_iff.mpr hy
    cases hcase : (List.insertionSort leRow m.rows).find?
        (fun z : Nat × Row => rootKey z.2 == rootKey y.2) with
    | none =>
      exfalso
      have := List.find?_eq_none.mp hcase y hyin
      exact this (beq_self_eq_true _)
    | some z =>
      have hpz := List.find?_some hcase
      have hkz : rootKey z.2 = rootKey y.2 := beq_iff_eq.mp hpz
      refine ⟨z, ?_, hkz⟩
      rw [hrows]
      refine (mem_dedupGo_iff [] (List.insertionSort leRow m.rows)).mpr ⟨rfl, ?_⟩
      rw [hkz]
      exact hcase

/-- Witness for C2: of two rows sharing RootID "DSH1" with begin dates
2023-01-01 and 2024-06-01, only the 2024-06-01 row survives, and it dominates
both group members. -/
theorem c2_latest_begin_dedup_witness :
    (1, [("RootID", Cell.str "DSH1"), ("BeginDate", Cell.dt ⟨1717200000, none⟩)]) ∈
      (⟨["RootID", "BeginDate"],
        [(0, [("RootID", Cell.str "DSH1"), ("BeginDate", Cell.dt ⟨1672531200, none⟩)]),
         (1, [("RootID", Cell.str "DSH1"), ("BeginDate", Cell.dt ⟨1717200000, none⟩)])]⟩ :
        PFrame).rows ∧
    ∀ y ∈ (⟨["RootID", "BeginDate"],
        [(0, [("RootID", Cell.str "DSH1"), ("BeginDate", Cell.dt ⟨1672531200, none⟩)]),
         (1, [("RootID", Cell.str "DSH1"), ("BeginDate", Cell.dt ⟨1717200000, none⟩)])]⟩ :
        PFrame).rows,
      rootKey y.2 = rootKey
          (1, [("RootID", Cell.str "DSH1"),
            ("BeginDate", Cell.dt ⟨1717200000, none⟩)]).2 →
        bkBeforeb
            (beginKey (1, [("RootID", Cell.str "DSH1"),
              ("BeginDate", Cell.dt ⟨1717200000, none⟩)]).2)
            (beginKey y.2) = true ∨
          (beginKey (1, [("RootID", Cell.str "DSH1"),
              ("BeginDate", Cell.dt ⟨1717200000, none⟩)]).2 = beginKey y.2 ∧
            (1, [("RootID", Cell.str "DSH1"),
              ("BeginDate", Cell.dt ⟨1717200000, none⟩)]).1 ≤ y.1) := by
  have h := (c2_latest_begin_dedup
    (⟨["RootID", "BeginDate"],
      [(0, [("RootID", Cell.str "DSH1"), ("BeginDate", Cell.dt ⟨1672531200, none⟩)]),
       (1, [("RootID", Cell.str "DSH1"), ("BeginDate", Cell.dt ⟨1717200000, none⟩)])]⟩ :
      PFrame)
    (1, [("RootID", Cell.str "DSH1"),
      ("BeginDate", Cell.dt ⟨1717200000, none⟩)])).2.1 (by decide)
  exact ⟨h.1, h.2.1⟩

/-! ## Claim C4: the two filtering steps -/

/-- The prefix mask holds exactly when RootID is present and starts with an
upper-cased configured prefix. -/
theorem prefixKeep_iff (prefixes : List String) (r : Row) :
    prefixKeep prefixes r = true ↔
      ∃ s, rootKey r = some s ∧ ∃ p ∈ prefixes, pyStartsWith s (pyUpper p) = true := by
  unfold prefixKeep
  cases hrk : rootKey r with
  | none => simp
  | some s =>
    simp only [List.any_eq_true, List.mem_map, Option.some.injEq]
    constructor
    · rintro ⟨pu, ⟨p, hp, rfl⟩, hsw⟩
      exact ⟨s, rfl, p, hp, hsw⟩
    · rintro ⟨s2, hs2, p, hp, hsw⟩
      cases hs2
      exact ⟨pyUpper p, ⟨p, hp, rfl⟩, hsw⟩

/-- The activity mask holds exactly when TermDate is missing or at/after the
reference date. -/
theorem activeKeep_iff (today : DT) (r : Row) :
    activeKeep today r = true ↔
      (termKey r = none ∨ ∃ t, termKey r = some t ∧ today.ts ≤ t) := by
  unfold activeKeep
  cases h : termKey r with
  | none => simp
  | some t => simp

/-- C4: a row survives the prefix filter followed by the activity filter
exactly when its RootID is non-null and starts with one of the upper-cased
configured prefixes and its TermDate is null or at least the reference date;
the date bound is inclusive (a TermDate equal to the reference date is kept,
one a day earlier is dropped). -/
theorem c4_filter_characterization :
    (∀ (prefixes : List String) (today : DT) (m : PFrame) (e : Nat × Row),
      e ∈ (activeFilter today (prefixFilter prefixes m)).rows ↔
        e ∈ m.rows ∧
          (∃ s, rootKey e.2 = some s ∧
            ∃ p ∈ prefixes, pyStartsWith s (pyUpper p) = true) ∧
          (termKey e.2 = none ∨ ∃ t, termKey e.2 = some t ∧ today.ts ≤ t)) ∧
    (∀ (today : DT) (r : Row), getCell r "TermDate" = Cell.blank →
      activeKeep today r = true) ∧
    (∀ tv : Int, ∀ tz : Option Int,
      activeKeep ⟨tv, tz⟩ [("TermDate", Cell.dt ⟨tv, none⟩)] = true) ∧
    (∀ tv : Int, ∀ tz : Option Int,
      activeKeep ⟨tv, tz⟩ [("TermDate", Cell.dt ⟨tv - 86400, none⟩)] = false) := by
  refine ⟨?_, ?_, ?_, ?_⟩
  · intro prefixes today m e
    show e ∈ ((m.rows.filter (fun e => prefixKeep prefixes e.2)).filter
        (fun e => activeKeep today e.2)) ↔ _
    rw [List.mem_filter, List.mem_filter, prefixKeep_iff, activeKeep_iff, and_assoc]
  · intro today r hb
    unfold activeKeep termKey
    rw [hb]
  · intro tv tz
    have ht : termKey [("TermDate", Cell.dt ⟨tv, none⟩)] = some tv := by
      unfold termKey
      rw [getCell_cons_pos _ _ _ (beq_self_eq_true _)]
    unfold activeKeep
    rw [ht]
    simp
  · intro tv tz
    have ht : termKey [("TermDate", Cell.dt ⟨tv - 86400, none⟩)] = some (tv - 86400) := by
      unfold termKey
      rw [getCell_cons_pos _ _ _ (beq_self_eq_true _)]
    unfold activeKeep
    rw [ht]
    simp

/-- Witness for C4: a blank TermDate is kept. -/
theorem c4_filter_characterization_witness :
    activeKeep ⟨1717200000, none⟩ [("RootID", Cell.str "DSH1")] = true :=
  c4_filter_characterization.2.1 ⟨1717200000, none⟩ _ (by decide)

/-! ## Claim C3: invariants of the final output -/

theorem mem_addColName_self (cols : List String) (k : String) :
    k ∈ addColName cols k := by
  unfold addColName
  split
  · next h => exact List.elem_iff.mp h
  · exact List.mem_append.mpr (Or.inr (List.mem_singleton.mpr rfl))

theorem mem_addColName_of_mem {cols : List String} {c : String} (k : String)
    (h : c ∈ cols) : c ∈ addColName cols k := by
  unfold addColName
  split
  · exact h
  · exact List.mem_append_left _ h

/-- The shape of the sort stage never changes the column list. -/
theorem sortStage_cols (s : String) (m : PFrame) : (sortStage s m).cols = m.cols := by
  unfold sortStage
  split <;> rfl

theorem mem_sortStage {s : String} {m : PFrame} {e : Nat × Row} :
    e ∈ (sortStage s m).rows ↔ e ∈ m.rows := by
  unfold sortStage
  split
  · exact (List.perm_insertionSort leRow m.rows).mem_iff
  · exact Iff.rfl

theorem mem_dedupStage {m : PFrame} {e : Nat × Row}
    (h : e ∈ (dedupStage m).rows) : e ∈ m.rows := by
  obtain ⟨-, hf⟩ := (mem_dedupGo_iff [] m.rows).mp h
  exact List.mem_of_find?_eq_some hf

/-- The column list of the frame entering the dedup stage. -/
theorem pipeline_mid_cols (frames : List Frame) (prefixes : List String)
    (strat : String) (today : DT) :
    (dedupStage (sortStage strat (activeFilter today (prefixFilter prefixes
      (rootStage (coerceStage (concatFrames frames))))))).cols =
    addColName (addColName (addColName (unionCols frames) "BeginDate") "TermDate")
      "RootID" := by
  unfold dedupStage sortStage activeFilter prefixFilter rootStage coerceStage concatFrames
  split <;> rfl

theorem selectStage_rows (kac : Bool) (m : PFrame) :
    (selectStage kac m).rows =
      m.rows.map (fun e => selectRow ((selectStage kac m).cols) e.2) := rfl

theorem mem_selectStage_cols {m : PFrame} (kac : Bool) {c : String}
    (hc : c ∈ KEY_FIRST) (hm : c ∈ m.cols) : c ∈ (selectStage kac m).cols := by
  unfold selectStage
  have hkf : c ∈ KEY_FIRST.filter (fun c => m.cols.contains c) :=
    List.mem_filter.mpr ⟨hc, List.elem_iff.mpr hm⟩
  cases kac with
  | false => exact hkf
  | true => exact List.mem_append_left _ hkf

/-- RootID presence is exactly a string-valued RootID cell. -/
theorem rootKey_eq_some_iff {r : Row} {s : String} :
    rootKey r = some s ↔ getCell r "RootID" = Cell.str s := by
  unfold rootKey
  cases h : getCell r "RootID" <;> simp

/-- Every row that went through the date-coercion stage carries a TermDate
cell that is blank or a tz-naive datetime. -/
theorem termCell_blank_or_dt (m0 : PFrame) {e : Nat × Row}
    (he : e ∈ (rootStage (coerceStage m0)).rows) :
    getCell e.2 "TermDate" = Cell.blank ∨
      ∃ t : Int, getCell e.2 "TermDate" = Cell.dt ⟨t, none⟩ := by
  unfold rootStage coerceStage at he
  simp only [List.map_map, List.mem_map] at he
  obtain ⟨a, ha, rfl⟩ := he
  simp only [Function.comp]
  rw [getCell_setCell_ne _ _ _ _ (by decide)]
  rw [getCell_setCell_same]
  unfold coerceCell
  cases h : parseCellDT (getCell a.2 "TermDate") with
  | none => exact Or.inl rfl
  | some d => exact Or.inr ⟨d.ts, rfl⟩

/-- C3: whenever `process_folder` succeeds, every output record has a
non-null RootID starting with one of the upper-cased configured prefixes and
a TermDate that is blank or not earlier than the reference date, and no two
output records share a RootID. -/
theorem c3_output_invariants :
    ∀ (files : List PFile) (prefixes : List String) (strat : String) (today : DT)
      (kac : Bool) (F : Frame),
      process_folder files prefixes strat today kac = .ok F →
        (∀ r ∈ F.rows,
          (∃ s, getCell r "RootID" = Cell.str s ∧
            ∃ p ∈ prefixes, pyStartsWith s (pyUpper p) = true) ∧
          (getCell r "TermDate" = Cell.blank ∨
            ∃ d : DT, getCell r "TermDate" = Cell.dt d ∧ today.ts ≤ d.ts)) ∧
        F.rows.Pairwise (fun r1 r2 => getCell r1 "RootID" ≠ getCell r2 "RootID") := by
  intro files prefixes strat today kac F h
  simp only [process_folder] at h
  by_cases hc : (files.filter isCandidateFile).isEmpty = true
  · rw [if_pos hc] at h
    exact absurd h (fun hx => Except.noConfusion hx)
  · rw [if_neg hc] at h
    by_cases hf : ((files.filter isCandidateFile).filterMap loadFile).isEmpty = true
    · rw [if_pos hf] at h
      exact absurd h (fun hx => Except.noConfusion hx)
    · rw [if_neg hf] at h
      injection h with h
      subst h
      unfold pipelineCore
      -- abbreviations for the stages
      generalize hfr : (files.filter isCandidateFile).filterMap loadFile = frames
      generalize hmid : rootStage (coerceStage (concatFrames frames)) = mid
      have hMcols : "RootID" ∈ (dedupStage (sortStage strat (activeFilter today
          (prefixFilter prefixes mid)))).cols ∧
          "TermDate" ∈ (dedupStage (sortStage strat (activeFilter today
          (prefixFilter prefixes mid)))).cols := by
        rw [← hmid, pipeline_mid_cols]
        exact ⟨mem_addColName_self _ _,
          mem_addColName_of_mem _ (mem_addColName_self _ _)⟩
      constructor
      · intro r hr
        rw [selectStage_rows] at hr
        obtain ⟨e, he, rfl⟩ := List.mem_map.mp hr
        have heDedup := he
        have heMid : e ∈ (activeFilter today (prefixFilter prefixes mid)).rows :=
          mem_sortStage.mp (mem_dedupStage he)
        have hfilters :
            e ∈ mid.rows ∧ prefixKeep prefixes e.2 = true ∧
              activeKeep today e.2 = true := by
          have h1 := List.mem_filter.mp heMid
          have h2 := List.mem_filter.mp h1.1
          exact ⟨h2.1, h2.2, h1.2⟩
        have hselR : getCell (selectRow ((selectStage kac (dedupStage (sortStage strat
            (activeFilter today (prefixFilter prefixes mid))))).cols) e.2) "RootID" =
            getCell e.2 "RootID" :=
          getCell_selectRow _ _ _ (mem_selectStage_cols kac (by decide) hMcols.1)
        have hselT : getCell (selectRow ((selectStage kac (dedupStage (sortStage strat
            (activeFilter today (prefixFilter prefixes mid))))).cols) e.2) "TermDate" =
            getCell e.2 "TermDate" :=
          getCell_selectRow _ _ _ (mem_selectStage_cols kac (by decide) hMcols.2)
        constructor
        · obtain ⟨s, hs, p, hp, hsw⟩ := (prefixKeep_iff prefixes e.2).mp hfilters.2.1
          exact ⟨s, by rw [hselR]; exact rootKey_eq_some_iff.mp hs, p, hp, hsw⟩
        · have hshape := termCell_blank_or_dt (concatFrames frames)
            (by rw [hmid]; exact hfilters.1)
          rcases hshape with hb | ⟨t, ht⟩
          · exact Or.inl (by rw [hselT]; exact hb)
          · have hactive := (activeKeep_iff today e.2).mp hfilters.2.2
            have htk : termKey e.2 = some t := by
              unfold termKey
              rw [ht]
            rcases hactive with hnone | ⟨t2, ht2, hle⟩
            · rw [htk] at hnone
              exact absurd hnone (by simp)
            · rw [htk] at ht2
              injection ht2 with ht2
              subst ht2
              exact Or.inr ⟨⟨t, none⟩, by rw [hselT]; exact ht, hle⟩
      · rw [selectStage_rows]
        refine List.Pairwise.map _ ?_ (dedupGo_pairwise [] _)
        intro a b hab heq
        apply hab
        have ha' : getCell (selectRow _ a.2) "RootID" = getCell a.2 "RootID" :=
          getCell_selectRow _ _ _ (mem_selectStage_cols kac (by decide) hMcols.1)
        have hb' : getCell (selectRow _ b.2) "RootID" = getCell b.2 "RootID" :=
          getCell_selectRow _ _ _ (mem_selectStage_cols kac (by decide) hMcols.1)
        unfold rootKey
        rw [← ha', ← hb', heq]

/-- Witness for C3 on a concrete successful run: one input file with a DSH
row whose term date is blank. -/
theorem c3_output_invariants_witness :
    (∀ r ∈ (Frame.mk ["RootID", "ID", "BeginDate", "TermDate"]
        [[("RootID", Cell.str "DSH1"), ("ID", Cell.str "DSH1X"),
          ("BeginDate", Cell.dt ⟨1672531200, none⟩),
          ("TermDate", Cell.dt ⟨4070908800, none⟩)]]).rows,
      (∃ s, getCell r "RootID" = Cell.str s ∧
        ∃ p ∈ ["DSH", "PED"], pyStartsWith s (pyUpper p) = true) ∧
      (getCell r "TermDate" = Cell.blank ∨
        ∃ d : DT, getCell r "TermDate" = Cell.dt d ∧ (1717200000 : Int) ≤ d.ts)) ∧
    (Frame.mk ["RootID", "ID", "BeginDate", "TermDate"]
        [[("RootID", Cell.str "DSH1"), ("ID", Cell.str "DSH1X"),
          ("BeginDate", Cell.dt ⟨1672531200, none⟩),
          ("TermDate", Cell.dt ⟨4070908800, none⟩)]]).rows.Pairwise
      (fun r1 r2 => getCell r1 "RootID" ≠ getCell r2 "RootID") :=
  c3_output_invariants
    [⟨"a.xlsx", some [[Cell.str "340B ID", Cell.str "Begin Date", Cell.str "Term Date"],
      [Cell.str "DSH1X", Cell.str "2023-01-01", Cell.str "2099-01-01"]]⟩]
    ["DSH", "PED"] "latest-begin" ⟨1717200000, none⟩ false _ (by decide)

/-! ## Claim C7: the column matcher -/

theorem specLookup_cons_pos (p : String × String) (rest : List (String × String))
    (k : String) (h : (p.1 == k) = true) : specLookup (p :: rest) k = some p.2 := by
  unfold specLookup
  have hstep : List.find? (fun q : String × String => q.1 == k) (p :: rest) = some p :=
    List.find?_cons_of_pos _ h
  rw [hstep]
  rfl

theorem specLookup_cons_neg (p : String × String) (rest : List (String × String))
    (k : String) (h : (p.1 == k) = false) :
    specLookup (p :: rest) k = specLookup rest k := by
  unfold specLookup
  have hstep : List.find? (fun q : String × String => q.1 == k) (p :: rest) =
      List.find? (fun q : String × String => q.1 == k) rest :=
    List.find?_cons_of_neg _ (by simp [h])
  rw [hstep]

/-- Lookup after a dict update: the updated key reads the new value, every
other key is unchanged. -/
theorem specLookup_dictSet (m : List (String × String)) (k v k2 : String) :
    specLookup (dictSet m k v) k2 =
      if (k == k2) = true then some v else specLookup m k2 := by
  induction m with
  | nil =>
    show specLookup [(k, v)] k2 = _
    by_cases h : (k == k2) = true
    · rw [if_pos h, specLookup_cons_pos _ _ _ h]
    · rw [if_neg h, specLookup_cons_neg _ _ _ (by simpa using h)]
  | cons p rest ih =>
    show specLookup (if p.1 == k then (k, v) :: rest else p :: dictSet rest k v) k2 = _
    by_cases hp : (p.1 == k) = true
    · rw [if_pos hp]
      by_cases h2 : (k == k2) = true
      · rw [if_pos h2, specLookup_cons_pos _ _ _ h2]
      · have h2' : (k == k2) = false := by simpa using h2
        rw [if_neg h2, specLookup_cons_neg _ _ _ h2']
        have hp2 : (p.1 == k2) = false := by
          rw [beq_iff_eq.mp hp]
          exact h2'
        rw [specLookup_cons_neg _ _ _ hp2]
    · rw [if_neg hp]
      by_cases h2 : (p.1 == k2) = true
      · have hk : (k == k2) = false := by
          cases hkk : (k == k2) with
          | false => rfl
          | true =>
            exfalso
            rw [beq_iff_eq.mp hkk] at hp
            exact hp h2
        rw [if_neg (by simp [hk]), specLookup_cons_pos _ _ _ h2,
          specLookup_cons_pos _ _ _ h2]
      · have h2' : (p.1 == k2) = false := by simpa using h2
        rw [specLookup_cons_neg _ _ _ h2', ih, specLookup_cons_neg _ _ _ h2']

/-- The left-to-right, last-wins dict build of the specification computes the
same lookups as the comprehension model used by the code embedding. -/
theorem foldl_dictSet_lookup (cols : List String) (m : List (String × String))
    (k : String) :
    specLookup (cols.foldl (fun m c => dictSet m (normalize c) c) m) k =
      match (cols.reverse.map (fun c => (normalize c, c))).find?
          (fun p : String × String => p.1 == k) with
      | some p => some p.2
      | none => specLookup m k := by
  induction cols generalizing m with
  | nil => rfl
  | cons c cols ih =>
    show specLookup (cols.foldl _ (dictSet m (normalize c) c)) k = _
    rw [ih (dictSet m (normalize c) c)]
    have hrev : (c :: cols).reverse.map (fun c => (normalize c, c)) =
        cols.reverse.map (fun c => (normalize c, c)) ++ [(normalize c, c)] := by
      rw [List.reverse_cons, List.map_append]
      rfl
    rw [hrev, List.find?_append]
    cases hfind : (cols.reverse.map (fun c => (normalize c, c))).find?
        (fun p : String × String => p.1 == k) with
    | some p => rw [Option.or_some]
    | none =>
      rw [Option.none_or]
      by_cases hb : (normalize c == k) = true
      · have hstep : List.find? (fun p : String × String => p.1 == k)
            [(normalize c, c)] = some (normalize c, c) :=
          List.find?_cons_of_pos _ hb
        rw [hstep, specLookup_dictSet, if_pos hb]
      · have hb' : (normalize c == k) = false := by simpa using hb
        have hstep : List.find? (fun p : String × String => p.1 == k)
            [(normalize c, c)] = none := by
          have h1 : List.find? (fun p : String × String => p.1 == k)
              [(normalize c, c)] =
              List.find? (fun p : String × String => p.1 == k) [] :=
            List.find?_cons_of_neg _ (by simp [hb'])
          rw [h1]
          rfl
        rw [hstep, specLookup_dictSet, if_neg (by simp [hb'])]

/-- The two lookup models coincide. -/
theorem specNormMap_lookup (cols : List String) (k : String) :
    specLookup (specNormMap cols) k = dictLookup (normPairs cols) k := by
  unfold specNormMap dictLookup normPairs
  rw [foldl_dictSet_lookup, ← List.map_reverse]
  cases hfind : (cols.reverse.map (fun c => (normalize c, c))).find?
      (fun p : String × String => p.1 == k) with
  | some p => rfl
  | none => rfl

/-- C7: `best_match_column` implements the specified algorithm: build the
normalized-to-original map with last-wins collisions, return the original
label of the first candidate found by the exact pass, and only if the exact
pass finds nothing return the first observed column whose normalized label
contains a candidate's normalized form; nothing matches otherwise.  The two
spec examples evaluate as stated. -/
theorem c7_matcher_refines_spec :
    (∀ cols cands : List String, best_match_column cols cands = specMatch cols cands) ∧
    best_match_column ["Contract Begin Date"] ["Begin Date", "Contract Start Date"] =
      some "Contract Begin Date" ∧
    best_match_column ["foo"] ["bar"] = none := by
  refine ⟨?_, by decide, by decide⟩
  intro cols cands
  unfold best_match_column specMatch specExactPass specSubstrPass
  rw [show (fun cand => specLookup (specNormMap cols) (normalize cand)) =
      (fun cand => dictLookup (normPairs cols) (normalize cand)) from
    funext (fun cand => specNormMap_lookup cols (normalize cand))]

/-! ## Claim C1: RootID derivation -/

theorem ofNat_toNat_sub32 {c : Char} (h1 : 97 ≤ c.toNat) (h2 : c.toNat ≤ 122) :
    (Char.ofNat (c.toNat - 32)).toNat = c.toNat - 32 := by
  have hv : Nat.isValidChar (c.toNat - 32) := Or.inl (by omega)
  simp only [Char.ofNat, hv, dite_true]
  unfold Char.ofNatAux
  simp [Char.toNat, UInt32.toNat]

theorem isWS_nat_false {n : Nat} (h : 48 ≤ n) :
    ((n == 32) || (n == 9) || (n == 10) || (n == 13) || (n == 11) || (n == 12)) = false := by
  have h32 : (n == 32) = false := beq_eq_false_iff_ne.mpr (by omega)
  have h9 : (n == 9) = false := beq_eq_false_iff_ne.mpr (by omega)
  have h10 : (n == 10) = false := beq_eq_false_iff_ne.mpr (by omega)
  have h13 : (n == 13) = false := beq_eq_false_iff_ne.mpr (by omega)
  have h11 : (n == 11) = false := beq_eq_false_iff_ne.mpr (by omega)
  have h12 : (n == 12) = false := beq_eq_false_iff_ne.mpr (by omega)
  rw [h32, h9, h10, h13, h11, h12]
  rfl

/-- Upper-casing never turns a character into whitespace or out of it. -/
theorem isWS_upChar (c : Char) : isWS (upChar c) = isWS c := by
  unfold upChar
  by_cases h : 97 ≤ c.toNat ∧ c.toNat ≤ 122
  · rw [if_pos h]
    unfold isWS
    rw [ofNat_toNat_sub32 h.1 h.2]
    rw [isWS_nat_false (by omega), isWS_nat_false (by omega)]
  · rw [if_neg h]

theorem upChar_idem (c : Char) : upChar (upChar c) = upChar c := by
  by_cases h : 97 ≤ c.toNat ∧ c.toNat ≤ 122
  · have h1 : upChar c = Char.ofNat (c.toNat - 32) := by
      unfold upChar
      rw [if_pos h]
    rw [h1]
    unfold upChar
    rw [if_neg]
    intro hcond
    rw [ofNat_toNat_sub32 h.1 h.2] at hcond
    omega
  · have h1 : upChar c = c := by
      unfold upChar
      rw [if_neg h]
    rw [h1, h1]

theorem upChar_digit {c : Char} (h : isDigitCh c = true) : upChar c = c := by
  unfold isDigitCh at h
  simp only [Bool.and_eq_true, decide_eq_true_eq] at h
  unfold upChar
  rw [if_neg (by omega)]

theorem head_dropWhile_false {α : Type _} {p : α → Bool} :
    ∀ (l : List α) {c : α} {t : List α}, l.dropWhile p = c :: t → p c = false := by
  intro l
  induction l with
  | nil =>
    intro c t h
    simp at h
  | cons a as ih =>
    intro c t h
    rw [List.dropWhile_cons] at h
    by_cases hpa : p a = true
    · rw [if_pos hpa] at h
      exact ih h
    · rw [if_neg hpa] at h
      injection h with h1 _
      rw [← h1]
      simpa using hpa

theorem dropWhile_idem {α : Type _} (p : α → Bool) (l : List α) :
    (l.dropWhile p).dropWhile p = l.dropWhile p := by
  cases h : l.dropWhile p with
  | nil => rfl
  | cons c t =>
    rw [List.dropWhile_cons, if_neg (by simp [head_dropWhile_false l h])]

theorem getLast?_dropWhile {α : Type _} {p : α → Bool} :
    ∀ (l : List α), l.dropWhile p ≠ [] → (l.dropWhile p).getLast? = l.getLast? := by
  intro l
  induction l with
  | nil =>
    intro h
    exact absurd rfl h
  | cons a as ih =>
    intro h
    rw [List.dropWhile_cons] at h ⊢
    by_cases hpa : p a = true
    · rw [if_pos hpa] at h ⊢
      rw [ih h]
      have hasne : as ≠ [] := by
        intro h0
        rw [h0] at h
        exact h rfl
      cases as with
      | nil => exact absurd rfl hasne
      | cons b bs => rw [List.getLast?_cons_cons]
    · rw [if_neg hpa]

/-- Stripping a stripped character list changes nothing. -/
theorem dataStrip_idem (l : List Char) :
    (((((((l.dropWhile isWS).reverse.dropWhile isWS).reverse).dropWhile
      isWS).reverse).dropWhile isWS).reverse) =
      ((l.dropWhile isWS).reverse.dropWhile isWS).reverse := by
  set A := l.dropWhile isWS with hA
  set B := A.reverse.dropWhile isWS with hB
  have h1 : B.reverse.dropWhile isWS = B.reverse := by
    cases hBr : B.reverse with
    | nil => rfl
    | cons c t =>
      have hBne : B ≠ [] := by
        intro h0
        rw [h0] at hBr
        simp at hBr
      have hc : isWS c = false := by
        have hca : B.getLast? = some c := by
          rw [← List.head?_reverse, hBr]
          rfl
        have h2 : B.getLast? = A.reverse.getLast? := by
          rw [hB]
          exact getLast?_dropWhile A.reverse (by rw [← hB]; exact hBne)
        rw [h2, List.getLast?_reverse] at hca
        cases hAcase : A with
        | nil =>
          rw [hAcase] at hca
          simp at hca
        | cons a0 as0 =>
          have hstep : l.dropWhile isWS = a0 :: as0 := by
            rw [← hA]
            exact hAcase
          have ha0 : isWS a0 = false := head_dropWhile_false l hstep
          rw [hAcase, List.head?_cons] at hca
          injection hca with hc0
          rw [← hc0]
          exact ha0
      rw [List.dropWhile_cons, if_neg (by simp [hc])]
  rw [h1, List.reverse_reverse]
  have h2 : B.dropWhile isWS = B := by
    rw [hB]
    exact dropWhile_idem isWS A.reverse
  rw [h2]

theorem pyStrip_idem (s : String) : pyStrip (pyStrip s) = pyStrip s :=
  congrArg String.mk (dataStrip_idem s.data)

/-- Stripping commutes with upper-casing at the character-list level. -/
theorem dataStrip_map_upChar (l : List Char) :
    (((l.map upChar).dropWhile isWS).reverse.dropWhile isWS).reverse =
      (((l.dropWhile isWS).reverse.dropWhile isWS).reverse).map upChar := by
  rw [List.dropWhile_map]
  rw [show (isWS ∘ upChar) = isWS from funext isWS_upChar]
  rw [← List.map_reverse]
  rw [List.dropWhile_map]
  rw [show (isWS ∘ upChar) = isWS from funext isWS_upChar]
  rw [← List.map_reverse]

theorem pyStrip_pyUpper (s : String) : pyStrip (pyUpper s) = pyUpper (pyStrip s) :=
  congrArg String.mk (dataStrip_map_upChar s.data)

theorem pyUpper_idem (s : String) : pyUpper (pyUpper s) = pyUpper s := by
  have h : (s.data.map upChar).map upChar = s.data.map upChar := by
    rw [List.map_map]
    exact List.map_congr_left (fun c _ => upChar_idem c)
  exact congrArg String.mk h

theorem map_upChar_digits {l : List Char} (h : ∀ c ∈ l, isDigitCh c = true) :
    l.map upChar = l :=
  (List.map_congr_left (fun c hc => upChar_digit (h c hc))).trans (List.map_id l)

theorem pyUpper_append (a b : String) : pyUpper (a ++ b) = pyUpper a ++ pyUpper b :=
  congrArg String.mk (List.map_append upChar a.data b.data)

theorem startsWith_take {t pre : String} (h : pyStartsWith t pre = true) :
    t.data.take pre.data.length = pre.data := by
  unfold pyStartsWith at h
  exact (List.prefix_iff_eq_take.mp (List.isPrefixOf_iff_prefix.mp h)).symm

theorem strTake_of_startsWith {t pre : String} (h : pyStartsWith t pre = true) :
    strTake pre.data.length t = pre :=
  congrArg String.mk (startsWith_take h)

theorem not_both_dsh_ped (t : String) :
    ¬(pyStartsWith t "DSH" = true ∧ pyStartsWith t "PED" = true) := by
  rintro ⟨h1, h2⟩
  have e1 := startsWith_take h1
  have e2 := startsWith_take h2
  rw [show ("DSH" : String).data.length = 3 from by decide] at e1
  rw [show ("PED" : String).data.length = 3 from by decide] at e2
  rw [e1] at e2
  exact absurd e2 (by decide)

theorem pyUpper_strTakeWhile_digits (s : String) :
    pyUpper (strTakeWhile isDigitCh s) = strTakeWhile isDigitCh s :=
  congrArg String.mk
    (map_upChar_digits (fun _ hc => List.mem_takeWhile_imp hc))

/-- The upper-cased match of the hard-coded regex, on an already-upper-cased
string, equals the token-by-token pattern match of the specification wording
instantiated with the fixed token list DSH, PED. -/
theorem regex_vs_tokens {t : String} (hup : pyUpper t = t) :
    (regexRootMatch t).map pyUpper =
      ["DSH", "PED"].findSome? (fun p =>
        if pyStartsWith t (pyUpper p) &&
            !(strTakeWhile isDigitCh
              (strDrop (pyUpper p).data.length t)).data.isEmpty then
          some (pyUpper p ++
            strTakeWhile isDigitCh (strDrop (pyUpper p).data.length t))
        else none) := by
  have hDSH : pyUpper "DSH" = "DSH" := by decide
  have hPED : pyUpper "PED" = "PED" := by decide
  have hlen3 : ("DSH" : String).data.length = 3 := by decide
  have hlen3' : ("PED" : String).data.length = 3 := by decide
  simp only [List.findSome?_cons, hDSH, hPED, hlen3, hlen3', List.findSome?_nil]
  unfold regexRootMatch
  rw [hup]
  by_cases hD : pyStartsWith t "DSH" = true
  · have hP : pyStartsWith t "PED" = false := by
      cases hPc : pyStartsWith t "PED"
      · rfl
      · exact absurd ⟨hD, hPc⟩ (not_both_dsh_ped t)
    rw [hD, hP]
    by_cases hE : (strTakeWhile isDigitCh (strDrop 3 t)).data.isEmpty = true
    · simp [hE]
    · have hE' : (strTakeWhile isDigitCh (strDrop 3 t)).data.isEmpty = false := by
        simpa using hE
      have h3 : strTake 3 t = "DSH" := by
        have hx := strTake_of_startsWith hD
        rw [hlen3] at hx
        exact hx
      simp only [hE']
      simp
      rw [pyUpper_append, h3, pyUpper_strTakeWhile_digits, hDSH]
  · have hD' : pyStartsWith t "DSH" = false := by simpa using hD
    rw [hD']
    by_cases hP : pyStartsWith t "PED" = true
    · rw [hP]
      by_cases hE : (strTakeWhile isDigitCh (strDrop 3 t)).data.isEmpty = true
      · simp [hE]
      · have hE' : (strTakeWhile isDigitCh (strDrop 3 t)).data.isEmpty = false := by
          simpa using hE
        have h3 : strTake 3 t = "PED" := by
          have hx := strTake_of_startsWith hP
          rw [hlen3'] at hx
          exact hx
        simp only [hE']
        simp
        rw [pyUpper_append, h3, pyUpper_strTakeWhile_digits, hPED]
    · have hP' : pyStartsWith t "PED" = false := by simpa using hP
      rw [hP']
      simp

/-- The pipeline's RootID derivation on a cell agrees with the specification
pattern instantiated at the fixed tokens DSH, PED. -/
theorem extract_eq_claim (s : String) :
    extract_root_id (pyStrip (pyUpper s)) = claimRootID ["DSH", "PED"] s := by
  unfold extract_root_id claimRootID
  rw [pyStrip_idem (pyUpper s), pyStrip_pyUpper s]
  exact regex_vs_tokens (pyUpper_idem (pyStrip s))

/-- C1 (amended): for every row, the derived RootID equals the specified
pattern match — trim and upper-case the ID, match one of the FIXED tokens
DSH, PED case-insensitively followed by one or more decimal digits anchored
at the start, and return the matched substring upper-cased — regardless of
the configured prefix list; the three spec examples evaluate as stated. -/
theorem c1_rootid_fixed_tokens :
    (∀ r : Row, rowRootID r = claimRootID ["DSH", "PED"] (cellToStr (getCell r "ID"))) ∧
    extract_root_id "dsh001234" = some "DSH001234" ∧
    extract_root_id "PED-77" = none ∧
    extract_root_id "XYZ123" = none := by
  refine ⟨?_, by decide, by decide, by decide⟩
  intro r
  unfold rowRootID
  exact extract_eq_claim _

/-- C1 counterexample: with the configured prefix set {"XYZ"}, the claimed
pattern match over the configured tokens yields "XYZ123" while the code
derives no RootID — the derivation ignores the configuration. -/
theorem c1_configured_prefixes_counterexample :
    rowRootID [("ID", Cell.str "XYZ123")] ≠
      claimRootID ["XYZ"] (cellToStr (getCell [("ID", Cell.str "XYZ123")] "ID")) ∧
    rowRootID [("ID", Cell.str "XYZ123")] = none ∧
    claimRootID ["XYZ"] "XYZ123" = some "XYZ123" := by decide

/-! ## Claim C6: date coercion -/

/-- C6 counterexample: a datetime cell carrying the time of day 13:45:00
(timestamp 135900 = 1970-01-02 13:45:00) passes through `coerce_datetime`
with its time-of-day component intact — the result is not a midnight-only
calendar date, only the time-zone tag is removed. -/
theorem c6_time_of_day_counterexample :
    coerce_datetime [Cell.dt ⟨135900, some 0⟩] = [some ⟨135900, none⟩] ∧
    (135900 : Int) % 86400 ≠ 0 := by decide

/-- C6 (amended): `coerce_datetime` is total — every cell yields a value
(no error), an unparsable cell yields null, and a parsable cell yields its
parsed timestamp with the time-zone tag removed but the time of day
retained (no truncation to midnight). -/
theorem c6_coerce_datetime_amended :
    ∀ (cells : List Cell) (i : Nat),
      (coerce_datetime cells).length = cells.length ∧
      (∀ c, cells[i]? = some c → parseCellDT c = none →
        (coerce_datetime cells)[i]? = some none) ∧
      (∀ c d0, cells[i]? = some c → parseCellDT c = some d0 →
        (coerce_datetime cells)[i]? = some (some ⟨d0.ts, none⟩)) ∧
      (∀ d, (coerce_datetime cells)[i]? = some (some d) → d.tz = none) := by
  intro cells i
  refine ⟨List.length_map _ _, ?_, ?_, ?_⟩
  · intro c hc hp
    unfold coerce_datetime
    rw [List.getElem?_map, hc]
    simp [hp]
  · intro c d0 hc hp
    unfold coerce_datetime
    rw [List.getElem?_map, hc]
    simp [hp]
  · intro d hd
    unfold coerce_datetime at hd
    rw [List.getElem?_map] at hd
    cases hc : cells[i]? with
    | none =>
      rw [hc] at hd
      simp at hd
    | some c =>
      rw [hc] at hd
      simp only [Option.map_some'] at hd
      injection hd with hd
      cases hp : parseCellDT c with
      | none =>
        rw [hp] at hd
        simp at hd
      | some d0 =>
        rw [hp] at hd
        simp only [Option.map_some'] at hd
        injection hd with hd
        rw [← hd]

/-- Witness for C6: the unparsable string cell "junk" coerces to null, and
the ISO date cell "2024-06-01" keeps its midnight timestamp with no
time zone. -/
theorem c6_coerce_datetime_witness :
    (coerce_datetime [Cell.str "2024-06-01", Cell.str "junk"])[1]? = some none ∧
    (coerce_datetime [Cell.str "2024-06-01", Cell.str "junk"])[0]? =
      some (some ⟨1717200000, none⟩) :=
  ⟨(c6_coerce_datetime_amended [Cell.str "2024-06-01", Cell.str "junk"] 1).2.1
      (Cell.str "junk") (by decide) (by decide),
   (c6_coerce_datetime_amended [Cell.str "2024-06-01", Cell.str "junk"] 0).2.2.1
      (Cell.str "2024-06-01") ⟨1717200000, none⟩ (by decide) (by decide)⟩

/-! ## Claim C5: the per-file alias columns -/

/-- C5 counterexample: a file whose columns include both "340B ID" and a
distinct original column literally named "ID".  The id field resolves to
"340B ID" (exact match, first candidate), and the alias assignment
`df["ID"] = df["340B ID"]` OVERWRITES the original "ID" column's values, so
not every original column is retained unchanged. -/
theorem c5_overwrite_counterexample :
    (loadStep "f.xlsx" (Frame.mk ["340B ID", "ID", "Begin Date", "Term Date"]
      [[("340B ID", Cell.str "DSH1"), ("ID", Cell.str "orig"),
        ("Begin Date", Cell.blank), ("Term Date", Cell.blank)]])).isSome = true ∧
    colVals ((loadStep "f.xlsx" (Frame.mk ["340B ID", "ID", "Begin Date", "Term Date"]
      [[("340B ID", Cell.str "DSH1"), ("ID", Cell.str "orig"),
        ("Begin Date", Cell.blank), ("Term Date", Cell.blank)]])).getD ⟨[], []⟩) "ID" =
      [Cell.str "DSH1"] ∧
    colVals (Frame.mk ["340B ID", "ID", "Begin Date", "Term Date"]
      [[("340B ID", Cell.str "DSH1"), ("ID", Cell.str "orig"),
        ("Begin Date", Cell.blank), ("Term Date", Cell.blank)]]) "ID" =
      [Cell.str "orig"] ∧
    "ID" ∈ (Frame.mk ["340B ID", "ID", "Begin Date", "Term Date"]
      [[("340B ID", Cell.str "DSH1"), ("ID", Cell.str "orig"),
        ("Begin Date", Cell.blank), ("Term Date", Cell.blank)]] : Frame).cols := by
  decide

theorem colVals_aliasAssign_same (f : Frame) (k src : String) :
    colVals (aliasAssign f k src) k = colVals f src := by
  unfold colVals aliasAssign
  rw [List.map_map]
  exact List.map_congr_left (fun r _ => getCell_setCell_same r k (getCell r src))

theorem colVals_aliasAssign_ne (f : Frame) (k src c : String) (h : k ≠ c) :
    colVals (aliasAssign f k src) c = colVals f c := by
  unfold colVals aliasAssign
  rw [List.map_map]
  exact List.map_congr_left (fun r _ => getCell_setCell_ne r k c (getCell r src) h)

theorem colVals_constAssign_same (f : Frame) (k : String) (v : Cell) :
    colVals (constAssign f k v) k = f.rows.map (fun _ => v) := by
  unfold colVals constAssign
  rw [List.map_map]
  exact List.map_congr_left (fun r _ => getCell_setCell_same r k v)

theorem colVals_constAssign_ne (f : Frame) (k : String) (v : Cell) (c : String)
    (h : k ≠ c) : colVals (constAssign f k v) c = colVals f c := by
  unfold colVals constAssign
  rw [List.map_map]
  exact List.map_congr_left (fun r _ => getCell_setCell_ne r k c v h)

theorem mem_cols_aliasAssign {f : Frame} {c : String} (k src : String)
    (h : c ∈ f.cols) : c ∈ (aliasAssign f k src).cols :=
  mem_addColName_of_mem k h

theorem mem_cols_constAssign {f : Frame} {c : String} (k : String) (v : Cell)
    (h : c ∈ f.cols) : c ∈ (constAssign f k v).cols :=
  mem_addColName_of_mem k h

/-- What the matcher can return: a column whose normalization equals some
candidate's, or one whose normalization contains some candidate's. -/
theorem best_match_column_mem_or {cols cands : List String} {c : String}
    (h : best_match_column cols cands = some c) :
    normalize c ∈ cands.map normalize ∨
      ∃ cand ∈ cands, strContains (normalize c) (normalize cand) = true := by
  unfold best_match_column at h
  cases hf : cands.findSome? (fun cand => dictLookup (normPairs cols) (normalize cand)) with
  | some c0 =>
    rw [hf] at h
    injection h with h
    subst h
    obtain ⟨cand, hcand, hg⟩ := List.exists_of_findSome?_eq_some hf
    left
    unfold dictLookup at hg
    cases hfind : (normPairs cols).reverse.find?
        (fun p : String × String => p.1 == normalize cand) with
    | none =>
      rw [hfind] at hg
      simp at hg
    | some p =>
      rw [hfind] at hg
      simp only [Option.map_some'] at hg
      injection hg with hg
      have hp := List.find?_some hfind
      have hpm : p ∈ (normPairs cols).reverse := List.mem_of_find?_eq_some hfind
      rw [List.mem_reverse] at hpm
      unfold normPairs at hpm
      obtain ⟨col, hcol, hpe⟩ := List.mem_map.mp hpm
      have h1 : normalize col = p.1 := by rw [← hpe]
      have h2 : col = p.2 := by rw [← hpe]
      rw [hg] at h2
      subst h2
      rw [h1, beq_iff_eq.mp hp]
      exact List.mem_map.mpr ⟨cand, hcand, rfl⟩
  | none =>
    rw [hf] at h
    right
    have hp := List.find?_some h
    simp only [List.any_eq_true] at hp
    exact hp

/-- Decidable exclusion: a name that matches no candidate exactly and whose
normalization contains no candidate's normalization is never returned. -/
theorem best_match_column_ne (cols cands : List String) (n : String)
    (h1 : (cands.map normalize).contains (normalize n) = false)
    (h2 : cands.all (fun cand => !strContains (normalize n) (normalize cand)) = true) :
    best_match_column cols cands ≠ some n := by
  intro h
  rcases best_match_column_mem_or h with hm | ⟨cand, hc, hs⟩
  · have hcontr : (cands.map normalize).contains (normalize n) = true :=
      List.elem_iff.mpr hm
    rw [h1] at hcontr
    exact Bool.noConfusion hcontr
  · have hall := List.all_eq_true.mp h2 cand hc
    rw [hs] at hall
    exact Bool.noConfusion hall

/-- C5 (amended): for every file the loader accepts, every original column
NAME is retained; original columns not named like one of the assigned alias
columns keep their values unchanged; the alias columns ID, BeginDate,
TermDate (and EntityName, PharmacyName when resolved) are copies of the
resolved source columns of the input frame; and source_file is constantly
the file's base name.  (An original column named like an alias column is
overwritten by the assignment — the counterexample above.) -/
theorem c5_loader_aliases_amended :
    ∀ (fname : String) (F G : Frame), loadStep fname F = some G →
      (∀ c ∈ F.cols, c ∈ G.cols) ∧
      (∀ c ∈ F.cols, c ∉ ["ID", "BeginDate", "TermDate", "EntityName",
        "PharmacyName", "source_file"] → colVals G c = colVals F c) ∧
      (∀ cid, best_match_column F.cols ID_CANDS = some cid →
        colVals G "ID" = colVals F cid) ∧
      (∀ cb, best_match_column F.cols BEGIN_CANDS = some cb →
        colVals G "BeginDate" = colVals F cb) ∧
      (∀ ct, best_match_column F.cols TERM_CANDS = some ct →
        colVals G "TermDate" = colVals F ct) ∧
      (∀ ce, best_match_column F.cols ENTITY_CANDS = some ce →
        colVals G "EntityName" = colVals F ce) ∧
      (∀ cp, best_match_column F.cols PHARM_CANDS = some cp →
        colVals G "PharmacyName" = colVals F cp) ∧
      colVals G "source_file" = F.rows.map (fun _ => Cell.str fname) := by
  intro fname F G h
  simp only [loadStep] at h
  cases hid : best_match_column F.cols ID_CANDS with
  | none =>
    rw [hid] at h
    simp at h
  | some cid =>
    rw [hid] at h
    cases hbeg : best_match_column F.cols BEGIN_CANDS with
    | none =>
      rw [hbeg] at h
      simp at h
    | some cb =>
      rw [hbeg] at h
      cases hterm : best_match_column F.cols TERM_CANDS with
      | none =>
        rw [hterm] at h
        simp at h
      | some ct =>
        rw [hterm] at h
        have hcbne : cb ≠ "ID" := fun he =>
          best_match_column_ne F.cols BEGIN_CANDS "ID" (by decide) (by decide)
            (he ▸ hbeg)
        have hctne1 : ct ≠ "ID" := fun he =>
          best_match_column_ne F.cols TERM_CANDS "ID" (by decide) (by decide)
            (he ▸ hterm)
        have hctne2 : ct ≠ "BeginDate" := fun he =>
          best_match_column_ne F.cols TERM_CANDS "BeginDate" (by decide) (by decide)
            (he ▸ hterm)
        cases hent : best_match_column F.cols ENTITY_CANDS with
        | some ce =>
          simp only [hent] at h
          have hce1 : ce ≠ "ID" := fun he =>
            best_match_column_ne F.cols ENTITY_CANDS "ID" (by decide) (by decide)
              (he ▸ hent)
          have hce2 : ce ≠ "BeginDate" := fun he =>
            best_match_column_ne F.cols ENTITY_CANDS "BeginDate" (by decide)
              (by decide) (he ▸ hent)
          have hce3 : ce ≠ "TermDate" := fun he =>
            best_match_column_ne F.cols ENTITY_CANDS "TermDate" (by decide)
              (by decide) (he ▸ hent)
          cases hph : best_match_column F.cols PHARM_CANDS with
          | some cp =>
            simp only [hph] at h
            have hcp1 : cp ≠ "ID" := fun he =>
              best_match_column_ne F.cols PHARM_CANDS "ID" (by decide) (by decide)
                (he ▸ hph)
            have hcp2 : cp ≠ "BeginDate" := fun he =>
              best_match_column_ne F.cols PHARM_CANDS "BeginDate" (by decide)
                (by decide) (he ▸ hph)
            have hcp3 : cp ≠ "TermDate" := fun he =>
              best_match_column_ne F.cols PHARM_CANDS "TermDate" (by decide)
                (by decide) (he ▸ hph)
            have hcp4 : cp ≠ "EntityName" := fun he =>
              best_match_column_ne F.cols PHARM_CANDS "EntityName" (by decide)
                (by decide) (he ▸ hph)
            injection h with h
            subst h
            refine ⟨?_, ?_, ?_, ?_, ?_, ?_, ?_, ?_⟩
            · intro c hc
              exact mem_cols_constAssign _ _ (mem_cols_aliasAssign _ _
                (mem_cols_aliasAssign _ _ (mem_cols_aliasAssign _ _
                  (mem_cols_aliasAssign _ _ (mem_cols_aliasAssign _ _ hc)))))
            · intro c hc hnot
              simp only [List.mem_cons, not_or] at hnot
              obtain ⟨h1, h2, h3, h4, h5, h6, -⟩ := hnot
              rw [colVals_constAssign_ne _ _ _ _ (Ne.symm h6),
                colVals_aliasAssign_ne _ _ _ _ (Ne.symm h5),
                colVals_aliasAssign_ne _ _ _ _ (Ne.symm h4),
                colVals_aliasAssign_ne _ _ _ _ (Ne.symm h3),
                colVals_aliasAssign_ne _ _ _ _ (Ne.symm h2),
                colVals_aliasAssign_ne _ _ _ _ (Ne.symm h1)]
            · intro cid' hcid'
              injection hcid' with he
              subst he
              rw [colVals_constAssign_ne _ _ _ _ (by decide),
                colVals_aliasAssign_ne _ _ _ _ (by decide),
                colVals_aliasAssign_ne _ _ _ _ (by decide),
                colVals_aliasAssign_ne _ _ _ _ (by decide),
                colVals_aliasAssign_ne _ _ _ _ (by decide),
                colVals_aliasAssign_same]
            · intro cb' hcb'
              injection hcb' with he
              subst he
              rw [colVals_constAssign_ne _ _ _ _ (by decide),
                colVals_aliasAssign_ne _ _ _ _ (by decide),
                colVals_aliasAssign_ne _ _ _ _ (by decide),
                colVals_aliasAssign_ne _ _ _ _ (by decide),
                colVals_aliasAssign_same,
                colVals_aliasAssign_ne _ _ _ _ (Ne.symm hcbne)]
            · intro ct' hct'
              injection hct' with he
              subst he
              rw [colVals_constAssign_ne _ _ _ _ (by decide),
                colVals_aliasAssign_ne _ _ _ _ (by decide),
                colVals_aliasAssign_ne _ _ _ _ (by decide),
                colVals_aliasAssign_same,
                colVals_aliasAssign_ne _ _ _ _ (Ne.symm hctne2),
                colVals_aliasAssign_ne _ _ _ _ (Ne.symm hctne1)]
            · intro ce' hce'
              injection hce' with he
              subst he
              rw [colVals_constAssign_ne _ _ _ _ (by decide),
                colVals_aliasAssign_ne _ _ _ _ (by decide),
                colVals_aliasAssign_same,
                colVals_aliasAssign_ne _ _ _ _ (Ne.symm hce3),
                colVals_aliasAssign_ne _ _ _ _ (Ne.symm hce2),
                colVals_aliasAssign_ne _ _ _ _ (Ne.symm hce1)]
            · intro cp' hcp'
              injection hcp' with he
              subst he
              rw [colVals_constAssign_ne _ _ _ _ (by decide),
                colVals_aliasAssign_same,
                colVals_aliasAssign_ne _ _ _ _ (Ne.symm hcp4),
                colVals_aliasAssign_ne _ _ _ _ (Ne.symm hcp3),
                colVals_aliasAssign_ne _ _ _ _ (Ne.symm hcp2),
                colVals_aliasAssign_ne _ _ _ _ (Ne.symm hcp1)]
            · rw [colVals_constAssign_same]
              simp only [aliasAssign, List.map_map]
              exact List.map_congr_left (fun r _ => rfl)
          | none =>
            simp only [hph] at h
            injection h with h
            subst h
            refine ⟨?_, ?_, ?_, ?_, ?_, ?_, ?_, ?_⟩
            · intro c hc
              exact mem_cols_constAssign _ _ (mem_cols_aliasAssign _ _
                (mem_cols_aliasAssign _ _ (mem_cols_aliasAssign _ _
                  (mem_cols_aliasAssign _ _ hc))))
            · intro c hc hnot
              simp only [List.mem_cons, not_or] at hnot
              obtain ⟨h1, h2, h3, h4, h5, h6, -⟩ := hnot
              rw [colVals_constAssign_ne _ _ _ _ (Ne.symm h6),
                colVals_aliasAssign_ne _ _ _ _ (Ne.symm h4),
                colVals_aliasAssign_ne _ _ _ _ (Ne.symm h3),
                colVals_aliasAssign_ne _ _ _ _ (Ne.symm h2),
                colVals_aliasAssign_ne _ _ _ _ (Ne.symm h1)]
            · intro cid' hcid'
              injection hcid' with he
              subst he
              rw [colVals_constAssign_ne _ _ _ _ (by decide),
                colVals_aliasAssign_ne _ _ _ _ (by decide),
                colVals_aliasAssign_ne _ _ _ _ (by decide),
                colVals_aliasAssign_ne _ _ _ _ (by decide),
                colVals_aliasAssign_same]
            · intro cb' hcb'
              injection hcb' with he
              subst he
              rw [colVals_constAssign_ne _ _ _ _ (by decide),
                colVals_aliasAssign_ne _ _ _ _ (by decide),
                colVals_aliasAssign_ne _ _ _ _ (by decide),
                colVals_aliasAssign_same,
                colVals_aliasAssign_ne _ _ _ _ (Ne.symm hcbne)]
            · intro ct' hct'
              injection hct' with he
              subst he
              rw [colVals_constAssign_ne _ _ _ _ (by decide),
                colVals_aliasAssign_ne _ _ _ _ (by decide),
                colVals_aliasAssign_same,
                colVals_aliasAssign_ne _ _ _ _ (Ne.symm hctne2),
                colVals_aliasAssign_ne _ _ _ _ (Ne.symm hctne1)]
            · intro ce' hce'
              injection hce' with he
              subst he
              rw [colVals_constAssign_ne _ _ _ _ (by decide),
                colVals_aliasAssign_same,
                colVals_aliasAssign_ne _ _ _ _ (Ne.symm hce3),
                colVals_aliasAssign_ne _ _ _ _ (Ne.symm hce2),
                colVals_aliasAssign_ne _ _ _ _ (Ne.symm hce1)]
            · intro cp' hcp'
              exact Option.noConfusion hcp'
            · rw [colVals_constAssign_same]
              simp only [aliasAssign, List.map_map]
              exact List.map_congr_left (fun r _ => rfl)
        | none =>
          simp only [hent] at h
          cases hph : best_match_column F.cols PHARM_CANDS with
          | some cp =>
            simp only [hph] at h
            have hcp1 : cp ≠ "ID" := fun he =>
              best_match_column_ne F.cols PHARM_CANDS "ID" (by decide) (by decide)
                (he ▸ hph)
            have hcp2 : cp ≠ "BeginDate" := fun he =>
              best_match_column_ne F.cols PHARM_CANDS "BeginDate" (by decide)
                (by decide) (he ▸ hph)
            have hcp3 : cp ≠ "TermDate" := fun he =>
              best_match_column_ne F.cols PHARM_CANDS "TermDate" (by decide)
                (by decide) (he ▸ hph)
            injection h with h
            subst h
            refine ⟨?_, ?_, ?_, ?_, ?_, ?_, ?_, ?_⟩
            · intro c hc
              exact mem_cols_constAssign _ _ (mem_cols_aliasAssign _ _
                (mem_cols_aliasAssign _ _ (mem_cols_aliasAssign _ _
                  (mem_cols_aliasAssign _ _ hc))))
            · intro c hc hnot
              simp only [List.mem_cons, not_or] at hnot
              obtain ⟨h1, h2, h3, h4, h5, h6, -⟩ := hnot
              rw [colVals_constAssign_ne _ _ _ _ (Ne.symm h6),
                colVals_aliasAssign_ne _ _ _ _ (Ne.symm h5),
                colVals_aliasAssign_ne _ _ _ _ (Ne.symm h3),
                colVals_aliasAssign_ne _ _ _ _ (Ne.symm h2),
                colVals_aliasAssign_ne _ _ _ _ (Ne.symm h1)]
            · intro cid' hcid'
              injection hcid' with he
              subst he
              rw [colVals_constAssign_ne _ _ _ _ (by decide),
                colVals_aliasAssign_ne _ _ _ _ (by decide),
                colVals_aliasAssign_ne _ _ _ _ (by decide),
                colVals_aliasAssign_ne _ _ _ _ (by decide),
                colVals_aliasAssign_same]
            · intro cb' hcb'
              injection hcb' with he
              subst he
              rw [colVals_constAssign_ne _ _ _ _ (by decide),
                colVals_aliasAssign_ne _ _ _ _ (by decide),
                colVals_aliasAssign_ne _ _ _ _ (by decide),
                colVals_aliasAssign_same,
                colVals_aliasAssign_ne _ _ _ _ (Ne.symm hcbne)]
            · intro ct' hct'
              injection hct' with he
              subst he
              rw [colVals_constAssign_ne _ _ _ _ (by decide),
                colVals_aliasAssign_ne _ _ _ _ (by decide),
                colVals_aliasAssign_same,
                colVals_aliasAssign_ne _ _ _ _ (Ne.symm hctne2),
                colVals_aliasAssign_ne _ _ _ _ (Ne.symm hctne1)]
            · intro ce' hce'
              exact Option.noConfusion hce'
            · intro cp' hcp'
              injection hcp' with he
              subst he
              rw [colVals_constAssign_ne _ _ _ _ (by decide),
                colVals_aliasAssign_same,
                colVals_aliasAssign_ne _ _ _ _ (Ne.symm hcp3),
                colVals_aliasAssign_ne _ _ _ _ (Ne.symm hcp2),
                colVals_aliasAssign_ne _ _ _ _ (Ne.symm hcp1)]
            · rw [colVals_constAssign_same]
              simp only [aliasAssign, List.map_map]
              exact List.map_congr_left (fun r _ => rfl)
          | none =>
            simp only [hph] at h
            injection h with h
            subst h
            refine ⟨?_, ?_, ?_, ?_, ?_, ?_, ?_, ?_⟩
            · intro c hc
              exact mem_cols_constAssign _ _ (mem_cols_aliasAssign _ _
                (mem_cols_aliasAssign _ _ (mem_cols_aliasAssign _ _ hc)))
            · intro c hc hnot
              simp only [List.mem_cons, not_or] at hnot
              obtain ⟨h1, h2, h3, h4, h5, h6, -⟩ := hnot
              rw [colVals_constAssign_ne _ _ _ _ (Ne.symm h6),
                colVals_aliasAssign_ne _ _ _ _ (Ne.symm h3),
                colVals_aliasAssign_ne _ _ _ _ (Ne.symm h2),
                colVals_aliasAssign_ne _ _ _ _ (Ne.symm h1)]
            · intro cid' hcid'
              injection hcid' with he
              subst he
              rw [colVals_constAssign_ne _ _ _ _ (by decide),
                colVals_aliasAssign_ne _ _ _ _ (by decide),
                colVals_aliasAssign_ne _ _ _ _ (by decide),
                colVals_aliasAssign_same]
            · intro cb' hcb'
              injection hcb' with he
              subst he
              rw [colVals_constAssign_ne _ _ _ _ (by decide),
                colVals_aliasAssign_ne _ _ _ _ (by decide),
                colVals_aliasAssign_same,
                colVals_aliasAssign_ne _ _ _ _ (Ne.symm hcbne)]
            · intro ct' hct'
              injection hct' with he
              subst he
              rw [colVals_constAssign_ne _ _ _ _ (by decide),
                colVals_aliasAssign_same,
                colVals_aliasAssign_ne _ _ _ _ (Ne.symm hctne2),
                colVals_aliasAssign_ne _ _ _ _ (Ne.symm hctne1)]
            · intro ce' hce'
              exact Option.noConfusion hce'
            · intro cp' hcp'
              exact Option.noConfusion hcp'
            · rw [colVals_constAssign_same]
              simp only [aliasAssign, List.map_map]
              exact List.map_congr_left (fun r _ => rfl)

/-- Witness for C5 at a concrete accepted file: the ID alias is a copy of
the resolved "340B ID" column and originals with distinct names survive. -/
theorem c5_loader_aliases_witness :
    colVals (Frame.mk
      ["340B ID", "Begin Date", "Term Date", "ID", "BeginDate", "TermDate", "source_file"]
      [[("340B ID", Cell.str "DSH1"), ("Begin Date", Cell.str "b"),
        ("Term Date", Cell.str "t"), ("ID", Cell.str "DSH1"),
        ("BeginDate", Cell.str "b"), ("TermDate", Cell.str "t"),
        ("source_file", Cell.str "a.xlsx")]]) "ID" =
      colVals (Frame.mk ["340B ID", "Begin Date", "Term Date"]
        [[("340B ID", Cell.str "DSH1"), ("Begin Date", Cell.str "b"),
          ("Term Date", Cell.str "t")]]) "340B ID" :=
  (c5_loader_aliases_amended "a.xlsx"
    (Frame.mk ["340B ID", "Begin Date", "Term Date"]
      [[("340B ID", Cell.str "DSH1"), ("Begin Date", Cell.str "b"),
        ("Term Date", Cell.str "t")]])
    (Frame.mk
      ["340B ID", "Begin Date", "Term Date", "ID", "BeginDate", "TermDate", "source_file"]
      [[("340B ID", Cell.str "DSH1"), ("Begin Date", Cell.str "b"),
        ("Term Date", Cell.str "t"), ("ID", Cell.str "DSH1"),
        ("BeginDate", Cell.str "b"), ("TermDate", Cell.str "t"),
        ("source_file", Cell.str "a.xlsx")]])
    (by decide)).2.2.1 "340B ID" (by decide)

end Merge340B
